import Mathlib

set_option maxHeartbeats 1000000
set_option linter.unusedVariables false

/-!
Shallow embedding of the commit-diff segmentation engine of
`kernel/scripts/create_changes.py`, together with proofs about the
properties its specification claims.

Modeling conventions:
* Multi-line Python strings (`hunk_content`, raw diff text, file contents)
  are modeled as `List String` of their lines.  The source always produces
  and consumes such text through `split("\n")` / `"\n".join(...)`, and the
  individual lines never contain a newline, so the two views are in
  bijection.
* Python `set[str]` becomes `Finset String` (the source only ever tests
  membership, unions, filters and sorts them, all order-insensitive).
* Python `dict[str, set[str]]` with insertion-ordered keys becomes an
  association list `List (String × Finset String)`.
* Python floats only ever hold ratios of small integer cardinalities which
  are compared against `0.8`; these comparisons are exact at the scale the
  engine uses, so they are modeled by `ℚ`.
* Fallible code returns `Option`.
-/

/-! ### Small Python-compatible string helpers -/

/-- Python `\w` word character (ASCII view of `[a-zA-Z0-9_]`). -/
def isWordChar (c : Char) : Bool :=
  c.isAlphanum || c = '_'

/-- Python `str.isspace()` on a single char. -/
def isSpaceChar (c : Char) : Bool :=
  c.isWhitespace

/-- Python `s.startswith(pre)`.  (A kernel-evaluable replacement for
`String.startsWith`, whose byte-position recursion does not reduce.) -/
def String.pyStartsWith (s pre : String) : Bool :=
  pre.toList.isPrefixOf s.toList

/-- Python `s.endswith(suf)`. -/
def String.pyEndsWith (s suf : String) : Bool :=
  suf.toList.isSuffixOf s.toList

/-- Python `not s` / `s == ""` tests on strings. -/
def String.pyIsEmpty (s : String) : Bool :=
  s.toList.isEmpty

/-- Worker of `String.pySplit`: non-overlapping left-to-right split on a
nonempty separator; `fuel` exceeds the remaining length. -/
def splitSubGo (sep : List Char) : Nat → List Char → List Char →
    List (List Char)
  | 0, cs, acc => [acc.reverse ++ cs]
  | fuel + 1, cs, acc =>
    if sep.isPrefixOf cs then
      acc.reverse :: splitSubGo sep fuel (cs.drop sep.length) []
    else
      match cs with
      | [] => [acc.reverse]
      | c :: rest => splitSubGo sep fuel rest (c :: acc)

/-- Python `s.split(sep)` for a nonempty separator (kernel-evaluable
replacement for `String.splitOn`). -/
def String.pySplit (s sep : String) : List String :=
  if sep.toList.isEmpty then [s]
  else (splitSubGo sep.toList (s.toList.length + 1) s.toList []).map
    List.asString

/-- Python `s.strip()` (kernel-evaluable replacement for `String.trim`). -/
def String.pyStrip (s : String) : String :=
  (((s.toList.dropWhile Char.isWhitespace).reverse.dropWhile
    Char.isWhitespace).reverse).asString

/-- Python `s.lstrip()`. -/
def String.pyLstrip (s : String) : String :=
  (s.toList.dropWhile Char.isWhitespace).asString

/-- Character-count prefix removal (Python slicing `s[n:]`). -/
def String.pyDrop (s : String) (n : Nat) : String :=
  (s.toList.drop n).asString

/-- Character-count suffix removal (Python slicing `s[:-n]`). -/
def String.pyDropRight (s : String) (n : Nat) : String :=
  (s.toList.take (s.toList.length - n)).asString

/-- Python `len(s)`. -/
def String.pyLen (s : String) : Nat :=
  s.toList.length

/-- Python `sep.join(parts)` (kernel-evaluable replacement for
`String.intercalate`). -/
def pyJoin (sep : String) : List String → String
  | [] => ""
  | [x] => x
  | x :: y :: xs => x ++ (sep ++ pyJoin sep (y :: xs))

/-- Does the string contain the character?  (Python `c in s` for 1-char `c`.) -/
def containsChar (s : String) (c : Char) : Bool :=
  s.toList.contains c

/-- Python substring containment `sub in s`. -/
def containsSub (s sub : String) : Bool :=
  decide (sub.toList <:+: s.toList)

/-- First character is whitespace (Python `line[0].isspace()` guarded by
nonemptiness at every call site). -/
def firstIsSpace (s : String) : Bool :=
  match s.toList with
  | [] => false
  | c :: _ => c.isWhitespace

/-- Python `str.split()` with no argument: split on runs of whitespace,
dropping empty fields. -/
def pySplitWS (s : String) : List String :=
  ((s.toList.splitOnP isSpaceChar).filter (fun w => !w.isEmpty)).map List.asString

/-- Python `str.lstrip("*&")`. -/
def lstripStarAmp (s : String) : String :=
  (s.toList.dropWhile (fun c => c = '*' || c = '&')).asString

/-- Python `str.lstrip("*")`. -/
def lstripStar (s : String) : String :=
  (s.toList.dropWhile (fun c => c = '*')).asString

/-- Python `str.rstrip(":")`. -/
def rstripColon (s : String) : String :=
  ((s.toList.reverse.dropWhile (fun c => c = ':')).reverse).asString

/-- All characters are alphanumeric-or-underscore
(Python `all(c.isalnum() or c == "_" for c in s)`). -/
def allWordChars (s : String) : Bool :=
  s.toList.all isWordChar

/-- A string whose characters are all whitespace (Python `s.rstrip()` erases
exactly the trailing such lines of a joined text; `""` counts). -/
def pyBlank (s : String) : Bool :=
  s.toList.all Char.isWhitespace

/-- Leading maximal run of word characters (Python `re.match(r"(\w+)", s)`:
`some` iff the string starts with a word char). -/
def leadingWord (s : String) : Option String :=
  match s.toList.takeWhile isWordChar with
  | [] => none
  | cs => some cs.asString

/-- Index of the first occurrence of a character (Python `s.find(c)`,
with `none` for `-1`). -/
def findCharIdx (s : String) (c : Char) : Option Nat :=
  s.toList.indexOf? c

/-- Insertion sort on strings, ascending (Python `sorted` on `str` compares
by code points, as Lean's `String` order does). -/
def sortedInsert (x : String) : List String → List String
  | [] => [x]
  | y :: ys => if x ≤ y then x :: y :: ys else y :: sortedInsert x ys

/-- Python `sorted(...)` for lists of strings. -/
def sortStrings : List String → List String
  | [] => []
  | x :: xs => sortedInsert x (sortStrings xs)

/-! ### Shared data model -/

/-- The per-hunk / per-change diffinfo dict
(`{"modifies": ..., "types": [...], "callers": [...], "calls": [...]}`). -/
structure HunkDiffInfoE where
  modifies : Option String
  types : List String
  callers : List String
  calls : List String
deriving DecidableEq

/-- One entry of `diffinfo["modified_functions"]`. -/
structure FuncInfoE where
  name : String
  types : List String
  callers : List String
  calls : List String
deriving DecidableEq

/-- The global diffinfo object returned by `run_semcode_diffinfo`. -/
structure GlobalDiffInfoE where
  modified_functions : List FuncInfoE
  modified_types : List String
  modified_macros : List String
deriving DecidableEq

/-- `Hunk` dataclass. `lines` holds the raw diff lines of the hunk body. -/
structure HunkE where
  header : String
  old_start : Nat
  old_count : Nat
  new_start : Nat
  new_count : Nat
  function_context : String
  lines : List String
  diffinfo : Option HunkDiffInfoE
deriving DecidableEq

/-- `FileChange` dataclass. -/
structure FileChangeE where
  old_path : String
  new_path : String
  hunks : List HunkE
deriving DecidableEq

/-! ### Size limits (module constants of the source) -/

/-- `MAX_COMBINED_ADDED_LINES` -/
def MAX_COMBINED_ADDED_LINES : Nat := 250

/-- `MAX_NEW_FUNCTION_COMBINED_LINES` -/
def MAX_NEW_FUNCTION_COMBINED_LINES : Nat := 250

/-- `MAX_LINES_PER_FILE` -/
def MAX_LINES_PER_FILE : Nat := 250

/-- `MAX_COMBINED_FILE_GROUP_LINES` -/
def MAX_COMBINED_FILE_GROUP_LINES : Nat := 250

/-- `MAX_SIMILARITY_COMBINED_LINES` -/
def MAX_SIMILARITY_COMBINED_LINES : Nat := 500

/-- ` MIN_FUNCTION_OVERLAP_RATIO = 0.8` (the float literal `0.8`; every ratio
the engine compares against it is a quotient of small integers, where the
comparison is exact, so it is modeled as the rational `8/10`). -/
def MIN_FUNCTION_OVERLAP_RATIO : ℚ := 8 / 10

/-! ### `count_added_lines` / `count_total_lines` -/

/-- `count_added_lines`: number of lines starting with `+` but not `++`
(the argument is the hunk content, modeled as its list of lines). -/
def count_added_lines (hunk_content : List String) : Nat :=
  (hunk_content.filter
    (fun line => line.pyStartsWith "+" && !(line.pyStartsWith "++"))).length

/-- `count_total_lines`: `len(hunk_content.rstrip().split("\n"))`.
`rstrip` erases the trailing whitespace-only lines of the joined text;
splitting an empty string still yields one (empty) field. -/
def count_total_lines (hunk_content : List String) : Nat :=
  let l := (hunk_content.reverse.dropWhile pyBlank).reverse
  if l.isEmpty then 1 else l.length

/-! ### The modification-combining pass (`main`, lines 1717-1749)

A modification segment is one `(hunk_header, hunk_content, added_lines,
diffinfo)` tuple of `modifications_by_key[file][function]`; its
`added_lines` entry is `count_added_lines(hunk_content)` computed at
collection time (line 1688), which the fold below recomputes in place. -/

/-- One modification segment (a non-new-definition segment of one
`(file, function)` key). -/
structure ModSeg where
  hunk_header : String
  hunk_content : List String
  diffinfo : Option HunkDiffInfoE
deriving DecidableEq

/-- The added-line count of a modification segment, as the collection loop
computes it (`added_lines = count_added_lines(hunk_content)`). -/
def mod_added (s : ModSeg) : Nat :=
  count_added_lines s.hunk_content

/-- Sum of added-line counts over a group of merged segments. -/
def addedSum (c : List ModSeg) : Nat :=
  (c.map mod_added).sum

/-- The inner fold of the modification-combining pass, returning the
partition of the segment list into the per-`Change` groups.  Mirrors the
loop at lines 1725-1749: a group is flushed exactly when
`current_added > 0 and current_added + added_lines > MAX_COMBINED_ADDED_LINES`,
and the trailing group is flushed if nonempty. -/
def modification_combine_go :
    List ModSeg → List ModSeg → Nat → List (List ModSeg)
  | [], cur, _ => if cur.isEmpty then [] else [cur]
  | s :: rest, cur, cur_added =>
    let a := mod_added s
    if 0 < cur_added ∧ MAX_COMBINED_ADDED_LINES < cur_added + a then
      cur :: modification_combine_go rest [s] a
    else
      modification_combine_go rest (cur ++ [s]) (cur_added + a)

/-- The partition of one `(file, function)` segment list into the groups
that become `Change` records. -/
def modification_combine (segs : List ModSeg) : List (List ModSeg) :=
  modification_combine_go segs [] 0

/-- `merge_diffinfo` (lines 1697-1715): first non-empty `modifies` wins,
reference lists are unioned preserving first-seen order. -/
def merge_diffinfo (info_list : List (Option HunkDiffInfoE)) :
    Option HunkDiffInfoE :=
  let infos := info_list.filterMap id
  if infos.isEmpty then none
  else
    some <| infos.foldl
      (fun merged info =>
        { modifies :=
            match merged.modifies with
            | some m => some m
            | none => info.modifies
          types := merged.types ++ info.types.filter (· ∉ merged.types)
          calls := merged.calls ++ info.calls.filter (· ∉ merged.calls)
          callers := merged.callers ++ info.callers.filter (· ∉ merged.callers) })
      ⟨none, [], [], []⟩

/-- The `header_part` taken from each segment when flushing
(`hunk_header.split("@@")[1].strip() if "@@" in hunk_header else hunk_header`). -/
def headerPart (hunk_header : String) : String :=
  if containsSub hunk_header "@@" then
    ((hunk_header.pySplit "@@").getD 1 "").pyStrip
  else hunk_header

/-- The flushed `Change` payload of one merged group
(function name is supplied by the enclosing loop key):
`(func_name, combined_header, combined_content, count_total_lines(...),
merge_diffinfo(...))`. -/
def flushModChange (func_name : String) (group : List ModSeg) :
    String × String × List String × Nat × Option HunkDiffInfoE :=
  let headers := group.map (fun s => headerPart s.hunk_header)
  let combined_header :=
    if 1 < headers.length then pyJoin " + " headers
    else headers.getD 0 ""
  let combined_content := List.intercalate [""] (group.map (·.hunk_content))
  (func_name, combined_header, combined_content,
    count_total_lines combined_content, merge_diffinfo (group.map (·.diffinfo)))

/-- The modification-combining pass for one `(file, function)` key:
the list of produced `Change` payloads. -/
def modification_pass (func_name : String) (segs : List ModSeg) :
    List (String × String × List String × Nat × Option HunkDiffInfoE) :=
  (modification_combine segs).map (flushModChange func_name)

/-! ### The walk-back symbol resolver
(`find_symbol_for_line_python` and helpers, lines 288-529) -/

/-- `is_false_positive_python`: goto/case/access-specifier labels. -/
def is_false_positive_python (line : String) : Bool :=
  let trimmed := line.pyStrip
  if line.pyIsEmpty || firstIsSpace line then false
  else if trimmed.pyEndsWith ":" then
    if trimmed.pyStartsWith "case " || trimmed.pyStartsWith "default:" then true
    else if trimmed = "public:" || trimmed = "private:" || trimmed = "protected:" then true
    else
      let label := rstripColon trimmed
      !label.pyIsEmpty && allWordChars label
  else false

/-- The ≤ 19-line look-ahead of `is_function_definition_python` searching for
the opening brace of a multi-line signature (the `for j in
range(line_idx + 1, min(len(lines), line_idx + 20))` loop). -/
def funcDefLookahead (lines : List String) : Nat → Nat → Bool
  | 0, _ => false
  | fuel + 1, j =>
    let next_line := lines.getD j ""
    let next_stripped := next_line.pyStrip
    if containsChar next_line '\x7b' then true
    else if next_stripped.pyIsEmpty then funcDefLookahead lines fuel (j + 1)
    else
      let is_continuation :=
        firstIsSpace next_line ||
        next_stripped.pyEndsWith "," ||
        next_stripped.pyEndsWith "(" ||
        next_stripped.pyEndsWith ")"
      if is_continuation then funcDefLookahead lines fuel (j + 1) else false

/-- `is_function_definition_python`. -/
def is_function_definition_python
    (line : String) (lines : List String) (line_idx : Nat) : Bool :=
  let stripped := line.pyLstrip
  if !line.pyIsEmpty && line.pyLen - stripped.pyLen > 1 then false
  else
    let trimmed := line.pyStrip
    if !(containsChar trimmed '(') then false
    else if trimmed.pyStartsWith "#" || trimmed.pyStartsWith "//" ||
        trimmed.pyStartsWith "/*" then false
    else if ["if", "while", "for", "switch", "return", "sizeof", "typeof",
        "case"].any
        (fun kw => trimmed.pyStartsWith (kw ++ "(") ||
          trimmed.pyStartsWith (kw ++ " (")) then false
    else if containsChar trimmed '\x7b' then true
    else
      funcDefLookahead lines
        (min lines.length (line_idx + 20) - (line_idx + 1)) (line_idx + 1)

/-- `is_type_definition_python`. -/
def is_type_definition_python (line : String) : Bool :=
  let trimmed := line.pyStrip
  if !(["struct ", "union ", "enum ", "typedef struct ", "typedef union ",
      "typedef enum "].any (fun kw => trimmed.pyStartsWith kw)) then false
  else containsChar trimmed '\x7b'

/-- The backward loop of `find_symbol_for_line_python`
(`for i in range(line_idx, max(-1, line_idx - 51), -1)`), walking `fuel`
candidate lines downward from index `i`. -/
def findSymGo (lines : List String) : Nat → Nat → Option String
  | 0, _ => none
  | fuel + 1, i =>
    let line := lines.getD i ""
    let trimmed := line.pyStrip
    if trimmed.pyIsEmpty || trimmed.pyStartsWith "//" || trimmed.pyStartsWith "/*" then
      findSymGo lines fuel (i - 1)
    else if is_false_positive_python line then
      findSymGo lines fuel (i - 1)
    else if is_function_definition_python line lines i then some trimmed
    else if is_type_definition_python line then some trimmed
    else if trimmed.pyStartsWith "#define " then some trimmed
    else
      -- The source ends the loop body with `if line and line[0].isspace():
      -- continue`, which has no effect: being the last statement of the loop
      -- body, the loop proceeds to the previous line whether or not the
      -- indentation test fires.
      findSymGo lines fuel (i - 1)

/-- `find_symbol_for_line_python`: walk back from `line_idx` to the nearest
enclosing function / type / macro declaration line. -/
def find_symbol_for_line_python
    (lines : List String) (line_idx : Nat) : Option String :=
  if lines.length ≤ line_idx then none
  else
    let current_line := (lines.getD line_idx "").pyStrip
    if current_line.pyStartsWith "typedef " && current_line.pyEndsWith ";" then
      some current_line
    else if current_line.pyStartsWith "#define " then some current_line
    else findSymGo lines (min (line_idx + 1) 51) line_idx

/-- Shared name extraction `tokens[-1].lstrip("*&")` from the text before a
`(` at character position `paren_pos` (used only when `paren_pos > 0`). -/
def funcSymFromParen (trimmed : String) (paren_pos : Nat) : Option String :=
  if 0 < paren_pos then
    let before_paren := (trimmed.toList.take paren_pos).asString
    match (pySplitWS before_paren).getLast? with
    | some tok =>
      let name := lstripStarAmp tok
      if !name.pyIsEmpty && allWordChars name then some (name ++ "()") else none
    | none => none
  else none

/-- The `type_prefixes` loop of `extract_symbol_name_from_declaration_python`:
`some r` means a prefix matched and the branch returned `r`; `none` means no
prefix matched and control falls through. -/
def typePrefixSym (trimmed : String) : List String → Option (Option String)
  | [] => none
  | p :: ps =>
    if trimmed.pyStartsWith p then
      let has_paren := containsChar trimmed '('
      let has_brace := containsChar trimmed '\x7b'
      let fnResult := funcSymFromParen trimmed ((findCharIdx trimmed '(').getD 0)
      if has_paren && !has_brace then some fnResult
      else if has_paren && has_brace &&
          (findCharIdx trimmed '(').getD 0 < (findCharIdx trimmed '\x7b').getD 0
        then some fnResult
      else
        let after_kw := (trimmed.pyDrop (p.pyLen)).pyStrip
        match leadingWord after_kw with
        | some w =>
          some (some (((p.replace "typedef " "").pyStrip) ++ " " ++ w))
        | none => some none
    else typePrefixSym trimmed ps

/-- `extract_symbol_name_from_declaration_python`: normalized symbol key
(`name()`, `<kind> name`, `#name`, `typedef name`). -/
def extract_symbol_name_from_declaration_python
    (decl_line : String) : Option String :=
  let trimmed := decl_line.pyStrip
  if trimmed.pyStartsWith "#define " then
    match leadingWord ((trimmed.pyDrop 8).pyStrip) with
    | some w => some ("#" ++ w)
    | none => none
  else
    match typePrefixSym trimmed
        ["typedef struct ", "typedef union ", "typedef enum ",
         "struct ", "union ", "enum "] with
    | some r => r
    | none =>
      if trimmed.pyStartsWith "typedef " && trimmed.pyEndsWith ";" then
        match (pySplitWS ((trimmed.pyDropRight 1).pyStrip)).getLast? with
        | some tok => some ("typedef " ++ tok)
        | none => none
      else
        match findCharIdx trimmed '(' with
        | some p => funcSymFromParen trimmed p
        | none => none

/-- `extract_function_name_from_symbol_python`. -/
def extract_function_name_from_symbol_python (symbol : String) : Option String :=
  let trimmed := symbol.pyStrip
  if trimmed.pyEndsWith "()" then some (trimmed.pyDropRight 2)
  else
    match findCharIdx trimmed '(' with
    | some p =>
      if 0 < p then
        let before_paren := (trimmed.toList.take p).asString
        match (pySplitWS before_paren).getLast? with
        | some tok =>
          let name := lstripStarAmp tok
          if !name.pyIsEmpty && allWordChars name then some name else none
        | none => none
      else none
    | none => none

/-- `extract_symbols_by_walkback_python`: the set of symbols found by walking
back from each modified line (the source returns `list(symbols)` of a
Python set; its order is irrelevant to every consumer, which only inserts
the entries into further sets). -/
def extract_symbols_by_walkback_python
    (lines : List String) (modified_lines : List Nat) : Finset String :=
  modified_lines.foldl
    (fun symbols ml =>
      match find_symbol_for_line_python lines ml with
      | some decl =>
        match extract_symbol_name_from_declaration_python decl with
        | some name => insert name symbols
        | none => symbols
      | none => symbols) ∅

/-! ### Call extraction and per-hunk parsing (lines 124-271, 652-659) -/

/-- `C_KEYWORDS`. -/
def C_KEYWORDS : List String :=
  ["if", "else", "for", "while", "do", "switch", "case", "default",
   "return", "break", "continue", "goto", "sizeof", "typeof",
   "int", "char", "float", "double", "void", "long", "short",
   "signed", "unsigned", "const", "static", "extern", "inline",
   "struct", "union", "enum", "typedef", "auto", "register", "volatile",
   "__attribute__", "__always_inline", "noinline", "bool", "_Bool"]

/-- The scan of `re.finditer(r"\b([a-zA-Z_][a-zA-Z0-9_]*)\s*\(", line)`:
at a word boundary, take the maximal identifier, skip whitespace, and
require `(`; on success continue after the `(`, otherwise advance one
position.  (The pattern is deterministic: shortening the greedy identifier
or whitespace runs can never make the following `(` match.) -/
def findCallsGo : Nat → List Char → Option Char → Finset String → Finset String
  | 0, _, _, acc => acc
  | _ + 1, [], _, acc => acc
  | fuel + 1, c :: rest, prev, acc =>
    let boundary :=
      match prev with
      | none => true
      | some p => !isWordChar p
    if boundary && (c.isAlpha || c = '_') then
      let identTail := rest.takeWhile isWordChar
      let name := (c :: identTail).asString
      let afterWS := (rest.drop identTail.length).dropWhile isSpaceChar
      match afterWS with
      | '(' :: rest2 =>
        let acc' := if name ∈ C_KEYWORDS then acc else insert name acc
        findCallsGo fuel rest2 (some '(') acc'
      | _ => findCallsGo fuel rest (some c) acc
    else findCallsGo fuel rest (some c) acc

/-- `extract_function_calls_python`. -/
def extract_function_calls_python (line : String) : Finset String :=
  let l := line.pyStrip
  if l.pyIsEmpty || l.pyStartsWith "//" || l.pyStartsWith "/*" || l.pyStartsWith "#"
    then ∅
  else findCallsGo l.toList.length l.toList none ∅

/-- `extract_function_from_hunk_header`: name from the `@@` context text
(the source uses `split("@@", 2)`, whose third part is the remainder after
the second separator). -/
def extract_function_from_hunk_header (hunk_header : String) : Option String :=
  if !(hunk_header.pyStartsWith "@@") then none
  else
    let parts := hunk_header.pySplit "@@"
    if parts.length < 3 then none
    else
      let function_context := (pyJoin "@@" (parts.drop 2)).pyStrip
      if function_context.pyIsEmpty then none
      else
        match findCharIdx function_context '(' with
        | some p =>
          if 0 < p then
            let before_paren := (function_context.toList.take p).asString
            match (pySplitWS before_paren).getLast? with
            | some tok =>
              let name := lstripStar tok
              if !name.pyIsEmpty && allWordChars name && name ∉ C_KEYWORDS then
                some name
              else none
            | none => none
          else none
        | none => none

/-- `DiffParseResult` dataclass.  `function_calls` is a `dict[str, set[str]]`
with insertion-ordered keys, modeled as an association list. -/
structure DiffParseResultE where
  modified_functions : Finset String
  called_functions : Finset String
  modified_types : Finset String
  modified_macros : Finset String
  function_calls : List (String × Finset String)
deriving DecidableEq

/-- `if func_name not in result.function_calls: result.function_calls[k] =
set(); result.function_calls[k].update(vs)`. -/
def fcUpdate (fc : List (String × Finset String)) (k : String)
    (vs : Finset String) : List (String × Finset String) :=
  if fc.any (fun e => e.1 = k) then
    fc.map (fun e => if e.1 = k then (e.1, e.2 ∪ vs) else e)
  else fc ++ [(k, vs)]

/-- `result.function_calls.get(k, set())`. -/
def fcGet (fc : List (String × Finset String)) (k : String) : Finset String :=
  match fc.find? (fun e => e.1 = k) with
  | some e => e.2
  | none => ∅

/-- Accumulator of the content loop of `parse_hunk_python`. -/
structure PhAcc where
  hunk_lines : List String
  modified : List Nat
  line_to_calls : List (Nat × Finset String)
  called : Finset String
  current_line : Nat
deriving DecidableEq

/-- The content loop of `parse_hunk_python` (lines 186-214): reconstruct the
new-side source (`hunk_lines`), mark modified positions, and record the
calls of each added line. -/
def phGo (lines : List String) : Nat → Nat → PhAcc → PhAcc
  | 0, _, acc => acc
  | fuel + 1, i, acc =>
    if lines.length ≤ i then acc
    else
      let line := lines.getD i ""
      if line.pyStartsWith "@@" || line.pyStartsWith "---" ||
          line.pyStartsWith "+++" then acc
      else if line.pyStartsWith "+" && !(line.pyStartsWith "+++") then
        let content := line.pyDrop 1
        let line_calls := extract_function_calls_python content
        phGo lines fuel (i + 1)
          { hunk_lines := acc.hunk_lines ++ [content]
            modified := acc.modified ++ [acc.current_line]
            line_to_calls :=
              if line_calls ≠ ∅ then
                acc.line_to_calls ++ [(acc.current_line, line_calls)]
              else acc.line_to_calls
            called := acc.called ∪ line_calls
            current_line := acc.current_line + 1 }
      else if line.pyStartsWith "-" && !(line.pyStartsWith "---") then
        let content := line.pyDrop 1
        phGo lines fuel (i + 1)
          { acc with
            modified := acc.modified ++ [acc.current_line]
            called := acc.called ∪ extract_function_calls_python content }
      else if line.pyStartsWith " " || line = "" then
        phGo lines fuel (i + 1)
          { acc with
            hunk_lines :=
              acc.hunk_lines ++ [if line.pyStartsWith " " then line.pyDrop 1 else ""]
            current_line := acc.current_line + 1 }
      else phGo lines fuel (i + 1) acc

/-- One step of the call-attribution loop of `parse_hunk_python`
(lines 231-248). -/
def attributeStep (hunk_lines : List String) (header_func_name : Option String)
    (fc : List (String × Finset String)) (entry : Nat × Finset String) :
    List (String × Finset String) :=
  let calls := entry.2
  match find_symbol_for_line_python hunk_lines entry.1 with
  | some containing_func =>
    match extract_function_name_from_symbol_python containing_func with
    | some func_name =>
      let filtered_calls := calls.filter (· ≠ func_name)
      if filtered_calls ≠ ∅ then fcUpdate fc func_name filtered_calls else fc
    | none => fc
  | none =>
    match header_func_name with
    | some hf =>
      let filtered_calls := calls.filter (· ≠ hf)
      if filtered_calls ≠ ∅ then fcUpdate fc hf filtered_calls else fc
    | none => fc

/-- The call-attribution loop over `line_to_calls.items()` (dict items come
back in insertion order). -/
def attributeCalls (hunk_lines : List String) (header_func_name : Option String)
    (l2c : List (Nat × Finset String)) : List (String × Finset String) :=
  l2c.foldl (attributeStep hunk_lines header_func_name) []

/-- `parse_hunk_python`: parse a single hunk starting at `hunk_start`. -/
def parse_hunk_python (lines : List String) (hunk_start : Nat) :
    DiffParseResultE :=
  let hunk_header := lines.getD hunk_start ""
  let header_func_name := extract_function_from_hunk_header hunk_header
  let mf0 : Finset String :=
    match header_func_name with
    | some n => {n}
    | none => ∅
  let acc := phGo lines lines.length (hunk_start + 1) ⟨[], [], [], ∅, 0⟩
  if acc.hunk_lines.isEmpty then
    { modified_functions := mf0
      called_functions := acc.called
      modified_types := ∅
      modified_macros := ∅
      function_calls := [] }
  else
    let symbols := extract_symbols_by_walkback_python acc.hunk_lines acc.modified
    let macros :=
      (symbols.filter (fun s => s.pyStartsWith "#")).image (fun s => s.pyDrop 1)
    let funcs :=
      (symbols.filter
        (fun s => !(s.pyStartsWith "#") && s.pyEndsWith "()")).image
        (fun s => s.pyDropRight 2)
    let types :=
      symbols.filter
        (fun s => !(s.pyStartsWith "#") && !(s.pyEndsWith "()") &&
          (s.pyStartsWith "struct " || s.pyStartsWith "union " ||
           s.pyStartsWith "enum " || s.pyStartsWith "typedef "))
    { modified_functions := mf0 ∪ funcs
      called_functions := acc.called
      modified_types := types
      modified_macros := macros
      function_calls := attributeCalls acc.hunk_lines header_func_name
        acc.line_to_calls }

/-- Set-merging of one hunk's parse result into the running result
(lines 146-154 of `parse_unified_diff_python`). -/
def mergeHunkResult (acc hr : DiffParseResultE) : DiffParseResultE :=
  { modified_functions := acc.modified_functions ∪ hr.modified_functions
    called_functions := acc.called_functions ∪ hr.called_functions
    modified_types := acc.modified_types ∪ hr.modified_types
    modified_macros := acc.modified_macros ∪ hr.modified_macros
    function_calls :=
      hr.function_calls.foldl (fun fc e => fcUpdate fc e.1 e.2)
        acc.function_calls }

/-- `while i < len(lines) and not lines[i].startswith(("@@", "---", "+++")):
i += 1` — skip to the end of the current hunk. -/
def pudSkip (lines : List String) : Nat → Nat → Nat
  | 0, i => i
  | fuel + 1, i =>
    if lines.length ≤ i then i
    else
      let l := lines.getD i ""
      if l.pyStartsWith "@@" || l.pyStartsWith "---" || l.pyStartsWith "+++" then i
      else pudSkip lines fuel (i + 1)

/-- The inner per-file loop of `parse_unified_diff_python` (lines 140-162);
returns the index at which it stopped together with the updated result. -/
def pudInner (lines : List String) : Nat → Nat → DiffParseResultE →
    Nat × DiffParseResultE
  | 0, i, acc => (i, acc)
  | fuel + 1, i, acc =>
    if lines.length ≤ i then (i, acc)
    else
      let hunk_line := lines.getD i ""
      if hunk_line.pyStartsWith "@@" then
        let acc' := mergeHunkResult acc (parse_hunk_python lines i)
        pudInner lines fuel (pudSkip lines lines.length (i + 1)) acc'
      else if hunk_line.pyStartsWith "---" || hunk_line.pyStartsWith "+++" then
        (i, acc)
      else pudInner lines fuel (i + 1) acc

/-- The outer loop of `parse_unified_diff_python` (lines 133-164). -/
def pudOuter (lines : List String) : Nat → Nat → DiffParseResultE →
    DiffParseResultE
  | 0, _, acc => acc
  | fuel + 1, i, acc =>
    if lines.length ≤ i then acc
    else
      let line := lines.getD i ""
      if line.pyStartsWith "+++" &&
          ([".c", ".h", ".cpp", ".cc", ".cxx"].any
            (fun ext => containsSub line ext)) then
        let st := pudInner lines (lines.length + 1) (i + 1) acc
        pudOuter lines fuel st.1 st.2
      else pudOuter lines fuel (i + 1) acc

/-- `parse_unified_diff_python` (the diff text is modeled as its list of
lines, which is what the source immediately converts it to). -/
def parse_unified_diff_python (lines : List String) : DiffParseResultE :=
  pudOuter lines (lines.length + 1) 0 ⟨∅, ∅, ∅, ∅, []⟩

/-- One entry of the fallback result of
`run_semcode_diffinfo.build_result_from_python`. -/
structure BuildFuncE where
  name : String
  types : List String
  callers : List String
  calls : List String
deriving DecidableEq

/-- The fallback result dict of `run_semcode_diffinfo`. -/
structure BuildResultE where
  modified_functions : List BuildFuncE
  modified_types : List String
  modified_macros : List String
deriving DecidableEq

/-- `build_result_from_python` (lines 571-587). -/
def build_result_from_python (r : DiffParseResultE) : BuildResultE :=
  { modified_functions :=
      (r.modified_functions.sort (· ≤ ·)).map (fun name =>
        { name := name
          types := []
          callers := []
          calls := ((fcGet r.function_calls name).filter (· ≠ name)).sort
            (· ≤ ·) })
    modified_types := r.modified_types.sort (· ≤ ·)
    modified_macros := r.modified_macros.sort (· ≤ ·) }

/-! ### Definition extraction from source files
(`find_function_start`, `find_function_end`, `get_definition_for_change`,
lines 662-905).  The source file's contents (read via `readlines()`) are
modeled as the list of its lines; the `len(definition)` threshold check
counts each line's characters plus its terminating newline, exactly as the
joined `readlines()` text does. -/

/-- The ≤ 20-line brace look-ahead inside `find_function_start`
(`for j in range(i, min(len(lines), i + 20))`).  `j = i` holds for the
first probe. -/
def ffsParenLookahead (lines : List String) (i : Nat) : Nat → Nat → Bool
  | 0, _ => false
  | fuel + 1, j =>
    if containsChar (lines.getD j "") '\x7b' then true
    else if j > i && !(lines.getD j "").pyStrip.pyIsEmpty &&
        !((lines.getD j "").pyStrip.pyStartsWith "\x7b") then
      if !((lines.getD (j - 1) "").pyStrip.pyEndsWith ",") &&
          !((lines.getD (j - 1) "").pyStrip.pyEndsWith "(") then false
      else ffsParenLookahead lines i fuel (j + 1)
    else ffsParenLookahead lines i fuel (j + 1)

/-- The ≤ 9-line brace look-ahead for type definitions inside
`find_function_start` (`for j in range(i + 1, min(len(lines), i + 10))`). -/
def ffsTypeLookahead (lines : List String) : Nat → Nat → Bool
  | 0, _ => false
  | fuel + 1, j =>
    if containsChar (lines.getD j "") '\x7b' then true
    else if !(lines.getD j "").pyStrip.pyIsEmpty &&
        !((lines.getD j "").pyStrip.pyStartsWith "\x7b") then false
    else ffsTypeLookahead lines fuel (j + 1)

/-- The backward loop of `find_function_start`
(`for i in range(target_line, max(-1, target_line - 100), -1)`). -/
def ffsGo (lines : List String) : Nat → Nat → Option Nat
  | 0, _ => none
  | fuel + 1, i =>
    let line := lines.getD i ""
    let stripped := line.pyStrip
    if stripped.pyIsEmpty || stripped.pyStartsWith "//" || stripped.pyStartsWith "/*"
      then ffsGo lines fuel (i - 1)
    else if stripped.pyStartsWith "#" && !(stripped.pyStartsWith "#define") then
      ffsGo lines fuel (i - 1)
    else
      let col0 := if line.pyIsEmpty then false else !(firstIsSpace line)
      let parenHit :=
        col0 && containsChar stripped '(' &&
        ffsParenLookahead lines i (min lines.length (i + 20) - i) i
      let typeHit :=
        col0 &&
        (["struct ", "union ", "enum ", "typedef struct ", "typedef union ",
          "typedef enum "].any (fun kw => stripped.pyStartsWith kw)) &&
        (containsChar stripped '\x7b' ||
          ffsTypeLookahead lines (min lines.length (i + 10) - (i + 1)) (i + 1))
      if parenHit then some i
      else if typeHit then some i
      else ffsGo lines fuel (i - 1)

/-- `find_function_start`: walk backwards from `target_line` to the start of
the enclosing function or type definition. -/
def find_function_start (lines : List String) (target_line : Nat) :
    Option Nat :=
  if lines.length ≤ target_line then none
  else ffsGo lines (min (target_line + 1) 100) target_line

/-- State of the character scanner of `find_function_end` that persists
across lines (`in_line_comment` is reset at each line end). -/
structure ScanSt where
  brace_depth : Int
  found_opening : Bool
  in_string : Bool
  in_char : Bool
  in_block_comment : Bool
deriving DecidableEq

/-- The per-line character loop of `find_function_end` (lines 725-783).
Returns the state at the end of the line and whether the matching closing
brace was reached on this line (the early `return i`). -/
def ffeScanLine (cs : List Char) : Nat → Nat → ScanSt → ScanSt × Bool
  | 0, _, st => (st, false)
  | fuel + 1, j, st =>
    if cs.length ≤ j then (st, false)
    else
      let char := cs.getD j ' '
      let next_char := cs.getD (j + 1) '\x00'
      if st.in_block_comment then
        if char = '*' && next_char = '/' then
          ffeScanLine cs fuel (j + 2) { st with in_block_comment := false }
        else ffeScanLine cs fuel (j + 1) st
      else if char = '/' && next_char = '/' then
        -- `in_line_comment = True; break`: the rest of the line is comment,
        -- and the flag is reset before the next line.
        (st, false)
      else if char = '/' && next_char = '*' then
        ffeScanLine cs fuel (j + 2) { st with in_block_comment := true }
      else if char = '"' && !st.in_char then
        if 0 < j && cs.getD (j - 1) '\x00' = '\\' then
          ffeScanLine cs fuel (j + 1) st
        else ffeScanLine cs fuel (j + 1) { st with in_string := !st.in_string }
      else if char = Char.ofNat 39 && !st.in_string then
        if 0 < j && cs.getD (j - 1) '\x00' = '\\' then
          ffeScanLine cs fuel (j + 1) st
        else ffeScanLine cs fuel (j + 1) { st with in_char := !st.in_char }
      else if st.in_string || st.in_char then
        ffeScanLine cs fuel (j + 1) st
      else if char = '\x7b' then
        ffeScanLine cs fuel (j + 1)
          { st with brace_depth := st.brace_depth + 1, found_opening := true }
      else if char = '\x7d' then
        let st' := { st with brace_depth := st.brace_depth - 1 }
        if st'.found_opening && st'.brace_depth = 0 then (st', true)
        else ffeScanLine cs fuel (j + 1) st'
      else ffeScanLine cs fuel (j + 1) st

/-- The line loop of `find_function_end`
(`for i in range(start_line, min(len(lines), start_line + 2000))`). -/
def ffeGo (lines : List String) : Nat → Nat → ScanSt → Option Nat
  | 0, _, _ => none
  | fuel + 1, i, st =>
    let cs := (lines.getD i "").toList
    let r := ffeScanLine cs (cs.length + 2) 0 st
    if r.2 then some i
    else ffeGo lines fuel (i + 1) r.1

/-- `find_function_end`: find the line of the matching closing brace,
scanning at most 2000 lines from `start_line`, tracking brace depth with
string-, char-literal- and comment-aware scanning. -/
def find_function_end (lines : List String) (start_line : Nat) : Option Nat :=
  ffeGo lines (min lines.length (start_line + 2000) - start_line) start_line
    ⟨0, false, false, false, false⟩

/-- `extract_function_name_from_line`. -/
def extract_function_name_from_line (line : String) : Option String :=
  match findCharIdx line '(' with
  | none => none
  | some paren_pos =>
    let before_paren := ((line.toList.take paren_pos).asString).pyStrip
    match (pySplitWS before_paren).getLast? with
    | none => none
    | some tok =>
      let name := lstripStarAmp tok
      if !name.pyIsEmpty && name ∉ C_KEYWORDS &&
          (match name.toList with
           | [] => false
           | c :: _ => c.isAlpha || c = '_') &&
          allWordChars name then
        some name
      else none

/-- `"".join(lines)` for a block of `readlines()` lines (each line of the
model carries no newline; the join restores one per line). -/
def joinNl (ls : List String) : String :=
  String.join (ls.map (fun l => l ++ "\n"))

/-- `get_definition_for_change`, with the file contents supplied as the list
of its lines (the source's path resolution and `open`/`readlines` I/O are
performed by the caller; a read failure yields `none` there).  The unused
`function_name` parameter is kept from the source signature. -/
def get_definition_for_change (file_lines : List String)
    (function_name : String) (hunk_new_start : Nat) : Option String :=
  if hunk_new_start = 0 then none  -- `target_line = hunk_new_start - 1 < 0`
  else
    let target_line := hunk_new_start - 1
    if file_lines.length ≤ target_line then none
    else
      match find_function_start file_lines target_line with
      | none => none
      | some start_line =>
        match find_function_end file_lines start_line with
        | none => none
        | some end_line =>
          let definition_lines :=
            (file_lines.drop start_line).take (end_line + 1 - start_line)
          let definition := joinNl definition_lines
          if 10000 < definition.pyLen then
            some (joinNl (definition_lines.take 100) ++
              "\n... [truncated, definition too long]\n")
          else some definition

/-! ### A small regex engine

The hunk segmenter and the `@@`-context parser use a handful of Python
regexes.  They are modeled by an AST together with a backtracking matcher
that enumerates the engine's match alternatives in Python's priority order
(leftmost position, greedy quantifiers, left alternative first); the head
of the enumeration is therefore Python's match. -/

/-- Regex AST, restricted to the constructs the source's patterns use.
`cls` carries the predicate of a character class; `group` marks a numbered
capture; `eos` is `$`. -/
inductive RE where
  | eps : RE
  | chr : Char → RE
  | cls : (Char → Bool) → RE
  | seq : RE → RE → RE
  | alt : RE → RE → RE
  | star : RE → RE
  | group : Nat → RE → RE
  | eos : RE

/-- Greedy repetition of a body matcher `f`: iterate-first (longest match
preferred), dropping iterations that consume nothing (Python's engine stops
repeating on an empty match).  `fuel` bounds the unfoldings; since every
kept iteration consumes at least one character, `fuel = length + 1` never
cuts anything off. -/
def starGo
    (f : List Char → List (Nat × String) →
      List (List Char × List (Nat × String))) :
    Nat → List Char → List (Nat × String) →
    List (List Char × List (Nat × String))
  | 0, cs, g => [(cs, g)]
  | fuel + 1, cs, g =>
    ((f cs g).filter (fun x => x.1.length < cs.length)).flatMap
      (fun x => starGo f fuel x.1 x.2) ++ [(cs, g)]

/-- All suffix matches of `r` against `cs`, most preferred first; captures
are threaded as an association list (latest assignment first). -/
def reAll (fuel : Nat) : RE → List Char → List (Nat × String) →
    List (List Char × List (Nat × String))
  | .eps, cs, g => [(cs, g)]
  | .chr c, cs, g =>
    match cs with
    | [] => []
    | x :: xs => if x = c then [(xs, g)] else []
  | .cls p, cs, g =>
    match cs with
    | [] => []
    | x :: xs => if p x then [(xs, g)] else []
  | .seq a b, cs, g =>
    (reAll fuel a cs g).flatMap (fun r => reAll fuel b r.1 r.2)
  | .alt a b, cs, g => reAll fuel a cs g ++ reAll fuel b cs g
  | .star r, cs, g => starGo (reAll fuel r) fuel cs g
  | .group n r, cs, g =>
    (reAll fuel r cs g).map
      (fun x => (x.1, (n, (cs.take (cs.length - x.1.length)).asString) :: x.2))
  | .eos, cs, g => if cs.isEmpty then [(cs, g)] else []

/-- `re.match(pattern, s)`: the captures of Python's match, if any. -/
def reMatch (r : RE) (s : String) : Option (List (Nat × String)) :=
  match reAll (s.pyLen + 1) r s.toList [] with
  | [] => none
  | x :: _ => some x.2

/-- `re.search` from successive start positions. -/
def reSearchFrom (r : RE) : Nat → List Char → Option (List (Nat × String))
  | fuel, cs =>
    match reAll (cs.length + 1) r cs [] with
    | x :: _ => some x.2
    | [] =>
      match fuel, cs with
      | fuel' + 1, _ :: rest => reSearchFrom r fuel' rest
      | _, _ => none

/-- `re.search(pattern, s)`. -/
def reSearch (r : RE) (s : String) : Option (List (Nat × String)) :=
  reSearchFrom r s.toList.length s.toList

/-- `match.group(1)`. -/
def group1 (g : List (Nat × String)) : Option String :=
  (g.find? (fun e => e.1 = 1)).map (·.2)

/-- Literal string regex. -/
def REstr (s : String) : RE :=
  s.toList.foldr (fun c acc => RE.seq (RE.chr c) acc) RE.eps

/-- `\s` -/
def REws : RE := RE.cls isSpaceChar

/-- `\s*` -/
def REwsStar : RE := RE.star REws

/-- `\s+` -/
def REwsPlus : RE := RE.seq REws (RE.star REws)

/-- `\w` -/
def REword : RE := RE.cls isWordChar

/-- `\w+` -/
def REwordPlus : RE := RE.seq REword (RE.star REword)

/-- `(?:r)?` -/
def REopt (r : RE) : RE := RE.alt r RE.eps

/-- `r+` -/
def REplus (r : RE) : RE := RE.seq r (RE.star r)

/-- Concatenation of a pattern list. -/
def REcat (rs : List RE) : RE := rs.foldr RE.seq RE.eps

/-- `\d` -/
def REdigit : RE := RE.cls Char.isDigit

/-! ### `find_function_definitions_in_hunk` (lines 1136-1210) -/

/-- `func_def_patterns[0]`:
`^\+\s*(?:static\s+)?(?:inline\s+)?(?:__always_inline\s+)?(?:noinline\s+)?(?:const\s+)?(?:\w+\s+\*?\s*)+(\w+)\s*\([^;]*$` -/
def funcDefPat1 : RE :=
  REcat [RE.chr '+', REwsStar,
    REopt (RE.seq (REstr "static") REwsPlus),
    REopt (RE.seq (REstr "inline") REwsPlus),
    REopt (RE.seq (REstr "__always_inline") REwsPlus),
    REopt (RE.seq (REstr "noinline") REwsPlus),
    REopt (RE.seq (REstr "const") REwsPlus),
    REplus (REcat [REwordPlus, REwsPlus, REopt (RE.chr '*'), REwsStar]),
    RE.group 1 REwordPlus, REwsStar, RE.chr '(',
    RE.star (RE.cls (fun c => c ≠ ';')), RE.eos]

/-- `func_def_patterns[1]`: `^\+\s*(?:static\s+)?(?:\w+\s+\*?\s*)*(\w+)\s*\(\s*$` -/
def funcDefPat2 : RE :=
  REcat [RE.chr '+', REwsStar,
    REopt (RE.seq (REstr "static") REwsPlus),
    RE.star (REcat [REwordPlus, REwsPlus, REopt (RE.chr '*'), REwsStar]),
    RE.group 1 REwordPlus, REwsStar, RE.chr '(', REwsStar, RE.eos]

/-- `^\+\s*(\w+)\s*\(` (the multi-line-signature name probe). -/
def funcNameParenPat : RE :=
  REcat [RE.chr '+', REwsStar, RE.group 1 REwordPlus, REwsStar, RE.chr '(']

/-- `(?:static|int|void|bool|u\d+|s\d+|long|unsigned)\s*$` (searched in the
previous added line). -/
def typeEndPat : RE :=
  REcat [
    RE.alt (REstr "static") (RE.alt (REstr "int") (RE.alt (REstr "void")
      (RE.alt (REstr "bool") (RE.alt (RE.seq (RE.chr 'u') (REplus REdigit))
      (RE.alt (RE.seq (RE.chr 's') (REplus REdigit))
      (RE.alt (REstr "long") (REstr "unsigned"))))))),
    REwsStar, RE.eos]

/-- The simple brace count of the new-function span scan
(lines 1187-1201): chars of `+`/context lines only, no string/comment
awareness; returns `(found_opening_brace, break line)` once the depth
returns to zero. -/
def ffdBraceScan (hunk_lines : List String) : Nat → Nat → Int → Bool →
    Bool × Option Nat
  | 0, _, _, found => (found, none)
  | fuel + 1, j, depth, found =>
    if hunk_lines.length ≤ j then (found, none)
    else
      let check_line := hunk_lines.getD j ""
      if check_line.pyStartsWith "+" || check_line.pyStartsWith " " then
        let content := check_line.pyDrop 1
        let r := content.toList.foldl
          (fun (p : Int × Bool) ch =>
            if ch = '\x7b' then (p.1 + 1, true)
            else if ch = '\x7d' then (p.1 - 1, p.2)
            else p) (depth, found)
        if r.2 && r.1 = 0 then (r.2, some j)
        else ffdBraceScan hunk_lines fuel (j + 1) r.1 r.2
      else ffdBraceScan hunk_lines fuel (j + 1) depth found

/-- The scan loop of `find_function_definitions_in_hunk`. -/
def ffdGo (hunk_lines : List String) : Nat → Nat →
    List (String × Nat × Nat) → List (String × Nat × Nat)
  | 0, _, acc => acc
  | fuel + 1, i, acc =>
    if hunk_lines.length ≤ i then acc
    else
      let line := hunk_lines.getD i ""
      if !(line.pyStartsWith "+") then ffdGo hunk_lines fuel (i + 1) acc
      else
        let fn1 : Option String :=
          match reMatch funcDefPat1 line with
          | some g => group1 g
          | none =>
            match reMatch funcDefPat2 line with
            | some g => group1 g
            | none => none
        let func_name : Option String :=
          match fn1 with
          | some n => some n
          | none =>
            if 0 < i ∧ (reMatch funcNameParenPat line).isSome then
              let prev := hunk_lines.getD (i - 1) ""
              if prev.pyStartsWith "+" ∧ (reSearch typeEndPat prev).isSome then
                match reMatch funcNameParenPat line with
                | some g => group1 g
                | none => none
              else none
            else none
        match func_name with
        | some fn =>
          if fn ∈ ["if", "for", "while", "switch", "return", "sizeof",
              "typeof"] then
            ffdGo hunk_lines fuel (i + 1) acc
          else
            let scan := ffdBraceScan hunk_lines (hunk_lines.length - i) i 0 false
            let end_idx := (scan.2).getD i
            if scan.1 then
              ffdGo hunk_lines fuel (end_idx + 1) (acc ++ [(fn, i, end_idx)])
            else ffdGo hunk_lines fuel (i + 1) acc
        | none => ffdGo hunk_lines fuel (i + 1) acc

/-- `find_function_definitions_in_hunk`: new-function spans of a hunk. -/
def find_function_definitions_in_hunk (hunk_lines : List String) :
    List (String × Nat × Nat) :=
  ffdGo hunk_lines (hunk_lines.length + 1) 0 []

/-! ### `extract_function_from_context` (lines 1104-1133) -/

/-- Pattern `(\w+)\s*\([^)]*\)\s*$`. -/
def ctxPat1 : RE :=
  REcat [RE.group 1 REwordPlus, REwsStar, RE.chr '(',
    RE.star (RE.cls (fun c => c ≠ ')')), RE.chr ')', REwsStar, RE.eos]

/-- Pattern `(\w+)\s*\($`. -/
def ctxPat2 : RE :=
  REcat [RE.group 1 REwordPlus, REwsStar, RE.chr '(', RE.eos]

/-- Pattern `^(?:static\s+)?(?:\w+\s+\*?\s*)?(\w+)\s*\(` (anchored: under
`re.search`, the leading `^` restricts it to position 0, i.e. `re.match`). -/
def ctxPat3 : RE :=
  REcat [REopt (RE.seq (REstr "static") REwsPlus),
    REopt (REcat [REwordPlus, REwsPlus, REopt (RE.chr '*'), REwsStar]),
    RE.group 1 REwordPlus, REwsStar, RE.chr '(']

/-- Pattern `SYSCALL_DEFINE\d+\((\w+)`. -/
def ctxPat4 : RE :=
  REcat [REstr "SYSCALL_DEFINE", REplus REdigit, RE.chr '(',
    RE.group 1 REwordPlus]

/-- Pattern `DEFINE_\w+\((\w+)`. -/
def ctxPat5 : RE :=
  REcat [REstr "DEFINE_", REwordPlus, RE.chr '(', RE.group 1 REwordPlus]

/-- Pattern `^struct\s+(\w+)` (anchored). -/
def ctxPat6 : RE :=
  REcat [REstr "struct", REwsPlus, RE.group 1 REwordPlus]

/-- `extract_function_from_context`: function name from the `@@` context
text, ultimately defaulting to `"unknown"`. -/
def extract_function_from_context (function_context : String) : String :=
  if function_context.pyIsEmpty then "unknown"
  else
    let hits : List (Option (List (Nat × String))) :=
      [reSearch ctxPat1 function_context,
       reSearch ctxPat2 function_context,
       reMatch ctxPat3 function_context,
       reSearch ctxPat4 function_context,
       reSearch ctxPat5 function_context,
       reMatch ctxPat6 function_context]
    match hits.findSome? (fun r => r.bind group1) with
    | some name => name
    | none =>
      match (pySplitWS function_context).getLast? with
      | some w =>
        let cleaned := (w.toList.filter isWordChar).asString
        if cleaned.pyIsEmpty then "unknown" else cleaned
      | none => "unknown"

/-! ### `find_changed_function_in_hunk` (lines 1213-1307) -/

/-- Its ≤ 19-line brace look-ahead (lines 1263-1287). -/
def fcfLookahead (hunk_lines : List String) : Nat → Nat → Bool
  | 0, _ => false
  | fuel + 1, j =>
    let jline := hunk_lines.getD j ""
    if jline = "" then fcfLookahead hunk_lines fuel (j + 1)
    else
      let jcontent :=
        if jline.pyStartsWith " " || jline.pyStartsWith "+" ||
            jline.pyStartsWith "-" then jline.pyDrop 1
        else jline
      if containsChar jcontent '\x7b' then true
      else
        let jstripped := jcontent.pyStrip
        if jstripped.pyIsEmpty then fcfLookahead hunk_lines fuel (j + 1)
        else
          let is_continuation :=
            (!jcontent.pyIsEmpty && firstIsSpace jcontent) ||
            jstripped.pyEndsWith "," || jstripped.pyEndsWith "(" ||
            jstripped.pyEndsWith ")"
          if is_continuation then fcfLookahead hunk_lines fuel (j + 1)
          else false

/-- The scan loop of `find_changed_function_in_hunk`: the FIRST candidate
definition line decides — `some` if `+`/`-` lines follow it, `none`
otherwise (the loop body ends in an unconditional `return`). -/
def fcfGo (hunk_lines : List String) : Nat → Nat → Option (String × Nat)
  | 0, _ => none
  | fuel + 1, i =>
    if hunk_lines.length ≤ i then none
    else
      let line := hunk_lines.getD i ""
      let contentO : Option String :=
        if line.pyStartsWith " " || line.pyStartsWith "+" || line.pyStartsWith "-"
          then some (line.pyDrop 1)
        else if line = "" then none
        else some line
      match contentO with
      | none => fcfGo hunk_lines fuel (i + 1)
      | some content =>
        if content.pyIsEmpty || firstIsSpace content then
          fcfGo hunk_lines fuel (i + 1)
        else
          let stripped := content.pyStrip
          if stripped.pyIsEmpty then fcfGo hunk_lines fuel (i + 1)
          else if stripped.pyStartsWith "//" || stripped.pyStartsWith "/*" ||
              stripped.pyStartsWith "*" || stripped.pyStartsWith "#" then
            fcfGo hunk_lines fuel (i + 1)
          else if stripped = "\x7d" ||
              (stripped.pyEndsWith ":" && !(containsChar stripped '(')) then
            fcfGo hunk_lines fuel (i + 1)
          else if !(containsChar stripped '(') then
            fcfGo hunk_lines fuel (i + 1)
          else
            let kwHit : Bool :=
              match (pySplitWS ((stripped.pySplit "(").getD 0 "")).getLast?
              with
              | some kw => decide (kw ∈ ["if", "while", "for", "switch",
                  "return", "sizeof", "typeof", "case", "else"])
              | none => false
            if kwHit then fcfGo hunk_lines fuel (i + 1)
            else
            let has_brace :=
              containsChar stripped '\x7b' ||
              fcfLookahead hunk_lines
                (min hunk_lines.length (i + 20) - (i + 1)) (i + 1)
            if !has_brace then fcfGo hunk_lines fuel (i + 1)
            else
              match extract_function_name_from_line stripped with
              | none => fcfGo hunk_lines fuel (i + 1)
              | some func_name =>
                let has_mods_after :=
                  (List.range' (i + 1) (hunk_lines.length - (i + 1))).any
                    (fun j =>
                      let l := hunk_lines.getD j ""
                      (l.pyStartsWith "+" || l.pyStartsWith "-") &&
                      !(l.pyStartsWith "+++") && !(l.pyStartsWith "---"))
                if has_mods_after then some (func_name, i)
                else none

/-- `find_changed_function_in_hunk`. -/
def find_changed_function_in_hunk (hunk_lines : List String) :
    Option (String × Nat) :=
  fcfGo hunk_lines (hunk_lines.length + 1) 0

/-! ### `split_hunk_by_functions` (lines 1310-1395) -/

/-- The `lookup_diffinfo` closure. -/
def lookup_diffinfo (hunk : HunkE) (global_diffinfo : Option GlobalDiffInfoE)
    (func_name : String) : Option HunkDiffInfoE :=
  match global_diffinfo with
  | some gdi =>
    match gdi.modified_functions.find? (fun fi => fi.name = func_name) with
    | some fi =>
      some { modifies := some func_name, types := fi.types,
             callers := fi.callers, calls := fi.calls }
    | none => hunk.diffinfo
  | none => hunk.diffinfo

/-- The changed-line test `startswith(("+", "-")) and not
startswith(("+++", "---"))` used on both sides of the body definition. -/
def isChangedLine (l : String) : Bool :=
  (l.pyStartsWith "+" || l.pyStartsWith "-") &&
  !(l.pyStartsWith "+++") && !(l.pyStartsWith "---")

/-- `split_hunk_by_functions`: segments `(function_name, hunk_header,
hunk_content, is_new_function, diffinfo)`; content strings are modeled as
their line lists (`hunk.header + "\n" + "\n".join(lines)` becomes
`hunk.header :: lines`). -/
def split_hunk_by_functions (hunk : HunkE) (file_path : String)
    (global_diffinfo : Option GlobalDiffInfoE) :
    List (String × String × List String × Bool × Option HunkDiffInfoE) :=
  let functions := find_function_definitions_in_hunk hunk.lines
  if functions.length = 0 then
    match find_changed_function_in_hunk hunk.lines with
    | some bodyr =>
      let body_func := bodyr.1
      let body_func_line := bodyr.2
      let has_mods_before :=
        (List.range body_func_line).any
          (fun j => isChangedLine (hunk.lines.getD j ""))
      if has_mods_before then
        let header_func := extract_function_from_context hunk.function_context
        let before_lines := hunk.lines.take body_func_line
        let after_lines := hunk.lines.drop body_func_line
        let before_content := hunk.header :: before_lines
        let after_content := hunk.header :: after_lines
        let before_diffinfo :=
          if header_func ≠ "unknown" then
            lookup_diffinfo hunk global_diffinfo header_func
          else hunk.diffinfo
        let after_diffinfo := lookup_diffinfo hunk global_diffinfo body_func
        [(header_func, hunk.header, before_content, false, before_diffinfo),
         (body_func, hunk.header, after_content, false, after_diffinfo)]
      else
        let func_name := body_func
        let diffinfo :=
          if func_name ≠ "unknown" then
            lookup_diffinfo hunk global_diffinfo func_name
          else hunk.diffinfo
        [(func_name, hunk.header, hunk.header :: hunk.lines, false, diffinfo)]
    | none =>
      let func_name := extract_function_from_context hunk.function_context
      let diffinfo :=
        if func_name ≠ "unknown" then
          lookup_diffinfo hunk global_diffinfo func_name
        else hunk.diffinfo
      [(func_name, hunk.header, hunk.header :: hunk.lines, false, diffinfo)]
  else if functions.length = 1 then
    let func_name := (functions.getD 0 ("", 0, 0)).1
    let diffinfo := lookup_diffinfo hunk global_diffinfo func_name
    [(func_name, hunk.header, hunk.header :: hunk.lines, true, diffinfo)]
  else
    functions.map (fun f =>
      let func_lines := (hunk.lines.drop f.2.1).take (f.2.2 + 1 - f.2.1)
      let new_header :=
        "@@ (within " ++ ((hunk.header.pySplit "@@").getD 1 "").pyStrip ++
        ") @@ " ++ f.1
      (f.1, new_header, new_header :: func_lines, true,
        lookup_diffinfo hunk global_diffinfo f.1))

/-! ### Group builder (lines 1428-1550 and the coalescing pass of `main`,
lines 1854-1903) -/

/-- The `"file"` entry of a group dict: a single path or a list of paths. -/
inductive FileF where
  | single : String → FileF
  | multi : List String → FileF
deriving DecidableEq

/-- `Change` dataclass. -/
structure ChangeE where
  file_num : Nat
  change_num : Nat
  file : String
  function : String
  hunk_header : String
  hunk_content : List String
  total_lines : Nat
  diffinfo : Option HunkDiffInfoE
  definition : Option String
deriving DecidableEq

/-- A `FILE-N` group dict (`file_num` / `file` / optional `files` /
`changes` / `total_lines`). -/
structure FileGroupE where
  file_num : Option Nat
  file : FileF
  files : Option (List String)
  changes : List ChangeE
  total_lines : Nat
deriving DecidableEq

/-- `extract_group_functions` (lines 1428-1452). -/
def extract_group_functions (group : FileGroupE) : Finset String :=
  group.changes.foldl
    (fun functions change =>
      let functions :=
        if change.function ≠ "" && change.function ≠ "unknown" then
          (change.function.pySplit ", ").foldl
            (fun fs f =>
              let f := f.pyStrip
              if f ≠ "" then insert f fs else fs)
            functions
        else functions
      match change.diffinfo with
      | some di =>
        let functions :=
          match di.modifies with
          | some m => if m ≠ "" then insert m functions else functions
          | none => functions
        let functions := di.callers.foldl (fun fs c => insert c fs) functions
        di.calls.foldl (fun fs c => insert c fs) functions
      | none => functions) ∅

/-- `calculate_function_overlap` (lines 1455-1467). -/
def calculate_function_overlap (funcs1 funcs2 : Finset String) : ℚ :=
  if funcs1 = ∅ ∨ funcs2 = ∅ then 0
  else
    let intersection := funcs1 ∩ funcs2
    let smaller_size := min funcs1.card funcs2.card
    (intersection.card : ℚ) / (smaller_size : ℚ)

/-- The best-pair search of one `while changed` iteration of
`combine_groups_by_similarity` (lines 1490-1511): highest overlap among
index pairs `i < j` of live groups whose combined size fits the cap, first
such pair in scan order winning ties (`overlap > best_overlap` is strict). -/
def findBestPair (working_groups : List (Option FileGroupE))
    (working_funcs : List (Finset String)) : ℚ × Option (Nat × Nat) :=
  (List.range working_groups.length).foldl
    (fun best i =>
      match working_groups.getD i none with
      | none => best
      | some gi =>
        (List.range' (i + 1) (working_groups.length - (i + 1))).foldl
          (fun best j =>
            match working_groups.getD j none with
            | none => best
            | some gj =>
              if MAX_SIMILARITY_COMBINED_LINES <
                  gi.total_lines + gj.total_lines then best
              else
                let overlap := calculate_function_overlap
                  (working_funcs.getD i ∅) (working_funcs.getD j ∅)
                if MIN_FUNCTION_OVERLAP_RATIO ≤ overlap ∧ best.1 < overlap
                  then (overlap, some (i, j))
                else best)
          best)
    (0, none)

/-- Merging group `j` into group `i` (lines 1514-1536): the slot `i` gets
the merged dict, slot `j` becomes `None`, and the function sets are
unioned. -/
def simMergeStep (working_groups : List (Option FileGroupE))
    (working_funcs : List (Finset String)) (i j : Nat) :
    List (Option FileGroupE) × List (Finset String) :=
  match working_groups.getD i none, working_groups.getD j none with
  | some gi, some gj =>
    let files_i := gi.files.getD
      (match gi.file with
       | .single s => [s]
       | .multi l => l)
    let files_j := gj.files.getD
      (match gj.file with
       | .single s => [s]
       | .multi l => l)
    let combined_files := files_i ++ files_j.filter (· ∉ files_i)
    let merged : FileGroupE :=
      { file_num := none
        file :=
          if 1 < combined_files.length then FileF.multi combined_files
          else FileF.single (combined_files.getD 0 "")
        files := some combined_files
        changes := gi.changes ++ gj.changes
        total_lines := gi.total_lines + gj.total_lines }
    ((working_groups.set i (some merged)).set j none,
     (working_funcs.set i
        ((working_funcs.getD i ∅) ∪ (working_funcs.getD j ∅))).set j ∅)
  | _, _ => (working_groups, working_funcs)

/-- The `while changed` loop: each iteration merges the best pair or stops.
Every merge nulls one group slot, so at most `length` merges are possible
and `fuel = length` reaches the loop's fixpoint. -/
def simLoop : Nat → List (Option FileGroupE) → List (Finset String) →
    List (Option FileGroupE) × List (Finset String)
  | 0, gs, fs => (gs, fs)
  | fuel + 1, gs, fs =>
    match (findBestPair gs fs).2 with
    | none => (gs, fs)
    | some ij =>
      let st := simMergeStep gs fs ij.1 ij.2
      simLoop fuel st.1 st.2

/-- The renumbering step (lines 1539-1549): reassign `file_num` and each
change's `(file_num, change_num)` sequentially from 1. -/
def renumberGroups (result : List FileGroupE) : List FileGroupE :=
  result.enum.map (fun kg =>
    { kg.2 with
      file_num := some (kg.1 + 1)
      changes := kg.2.changes.enum.map (fun mc =>
        { mc.2 with file_num := kg.1 + 1, change_num := mc.1 + 1 }) })

/-- `combine_groups_by_similarity` (lines 1470-1550). -/
def combine_groups_by_similarity (file_groups : List FileGroupE) :
    List FileGroupE :=
  if file_groups.length ≤ 1 then file_groups
  else
    let group_functions := file_groups.map extract_group_functions
    let st := simLoop file_groups.length (file_groups.map some) group_functions
    renumberGroups (st.1.filterMap id)

/-- Accumulator group of the small-group coalescing pass (a combined dict
with a `files` list). -/
structure CombGroup where
  files : List String
  changes : List ChangeE
  total_lines : Nat
deriving DecidableEq

/-- The `"file"` entry of a stage-A group (always a single path there). -/
def groupFilePath (g : FileGroupE) : String :=
  match g.file with
  | .single s => s
  | .multi l => l.getD 0 ""

/-- The fold of the small-group coalescing pass (lines 1860-1886). -/
def coalesceGo : List FileGroupE → Option CombGroup → List CombGroup →
    List CombGroup
  | [], cur, acc =>
    match cur with
    | some c => acc ++ [c]
    | none => acc
  | g :: rest, cur, acc =>
    match cur with
    | none =>
      coalesceGo rest (some ⟨[groupFilePath g], g.changes, g.total_lines⟩) acc
    | some c =>
      if c.total_lines + g.total_lines ≤ MAX_COMBINED_FILE_GROUP_LINES then
        coalesceGo rest
          (some ⟨c.files ++ [groupFilePath g], c.changes ++ g.changes,
            c.total_lines + g.total_lines⟩) acc
      else
        coalesceGo rest (some ⟨[groupFilePath g], g.changes, g.total_lines⟩)
          (acc ++ [c])

/-- Renumbering/finalization of the coalescing pass (lines 1888-1901). -/
def finalizeCoalesced (combined_groups : List CombGroup) : List FileGroupE :=
  combined_groups.enum.map (fun kc =>
    { file_num := some (kc.1 + 1)
      file :=
        if kc.2.files.length = 1 then FileF.single (kc.2.files.getD 0 "")
        else FileF.multi kc.2.files
      files := some kc.2.files
      changes := kc.2.changes.enum.map (fun mc =>
        { mc.2 with file_num := kc.1 + 1, change_num := mc.1 + 1 })
      total_lines := kc.2.total_lines })

/-- The small-group coalescing pass of `main` (lines 1854-1903); with one
group or fewer the pass is skipped entirely. -/
def small_group_coalesce (file_groups : List FileGroupE) : List FileGroupE :=
  if file_groups.length ≤ 1 then file_groups
  else finalizeCoalesced (coalesceGo file_groups none [])

/-! ### The diff tokenizer `parse_diff` (lines 1016-1101) -/

/-- Digit-prefix split (the anchored `(\d+)` of the hunk-header regex; the
maximal run is the regex's choice since every continuation of the pattern
starts with a non-digit). -/
def takeDigits (cs : List Char) : List Char × List Char :=
  (cs.takeWhile Char.isDigit, cs.dropWhile Char.isDigit)

/-- Value of a digit run. -/
def digitsToNat (ds : List Char) : Nat :=
  ds.foldl (fun n c => n * 10 + (c.toNat - 48)) 0

/-- `re.match(r"diff --git a/(.+) b/(.+)", line)`: after the literal prefix,
the greedy first group ends at the last ` b/` that leaves both groups
nonempty. -/
def matchDiffGit (line : String) : Option (String × String) :=
  if line.pyStartsWith "diff --git a/" then
    let rest := (line.pyDrop 13).toList
    let candidates := (List.range rest.length).filter
      (fun p => 0 < p ∧ (rest.drop p).take 3 = [' ', 'b', '/'] ∧
        p + 3 < rest.length)
    match candidates.max? with
    | some p => some ((rest.take p).asString, (rest.drop (p + 3)).asString)
    | none => none
  else none

/-- The optional `(?:,(\d+))?` piece: consumed only when a comma and at
least one digit follow (otherwise the regex must skip the group, since the
following literal is a space). -/
def optCommaDigits (cs : List Char) : Option (List Char) × List Char :=
  match cs with
  | ',' :: cs' =>
    let d := takeDigits cs'
    match d.1 with
    | [] => (none, cs)
    | ds => (some ds, d.2)
  | _ => (none, cs)

/-- `re.match(r"@@ -(\d+)(?:,(\d+))? \+(\d+)(?:,(\d+))? @@ ?(.*)", line)`:
`(old_start, old_count?, new_start, new_count?, context)`. -/
def matchHunkHeader (line : String) :
    Option (Nat × Option Nat × Nat × Option Nat × String) :=
  match line.toList with
  | '@' :: '@' :: ' ' :: '-' :: cs =>
    let d1 := takeDigits cs
    match d1.1 with
    | [] => none
    | ds1 =>
      let s1 := optCommaDigits d1.2
      match s1.2 with
      | ' ' :: '+' :: cs2 =>
        let d3 := takeDigits cs2
        match d3.1 with
        | [] => none
        | ds3 =>
          let s2 := optCommaDigits d3.2
          match s2.2 with
          | ' ' :: '@' :: '@' :: cs3 =>
            let ctx :=
              match cs3 with
              | ' ' :: cs4 => cs4
              | _ => cs3
            some (digitsToNat ds1, s1.1.map digitsToNat,
              digitsToNat ds3, s2.1.map digitsToNat, ctx.asString)
          | _ => none
      | _ => none
  | _ => none

/-- The per-hunk diffinfo lookup of `parse_diff` (lines 1059-1074). -/
def parseDiffHunkInfo (diffinfo : Option GlobalDiffInfoE)
    (func_context : String) : Option HunkDiffInfoE :=
  match diffinfo with
  | none => none
  | some di =>
    if func_context ≠ "" then
      let func_name := extract_function_from_context func_context
      if func_name ≠ "" ∧ func_name ≠ "unknown" then
        match di.modified_functions.find? (fun fi => fi.name = func_name) with
        | some fi =>
          some { modifies := some func_name, types := fi.types,
                 callers := fi.callers, calls := fi.calls }
        | none => none
      else none
    else none

/-- Flush the pending file (with its pending hunk) into the output list, as
done at each `diff --git` header and at end of input. -/
def flushFile (files : List FileChangeE) (cf : Option FileChangeE)
    (ch : Option HunkE) : List FileChangeE :=
  match cf with
  | some f =>
    match ch with
    | some h => files ++ [{ f with hunks := f.hunks ++ [h] }]
    | none => files ++ [f]
  | none => files

/-- The line loop of `parse_diff`. -/
def parse_diff_go (diffinfo : Option GlobalDiffInfoE) :
    List String → Option FileChangeE → Option HunkE → List FileChangeE →
    List FileChangeE
  | [], cf, ch, files => flushFile files cf ch
  | line :: rest, cf, ch, files =>
    if line.pyStartsWith "diff --git " then
      let files' := flushFile files cf ch
      let cf' :=
        match matchDiffGit line with
        | some pq => some ⟨pq.1, pq.2, []⟩
        | none =>
          -- On a malformed header the source keeps its previous (just
          -- appended) FileChange object and would mutate it through the
          -- alias; the immutable model keeps the record as-is.  The
          -- well-formed diffs treated below never take this branch.
          cf
      parse_diff_go diffinfo rest cf' none files'
    else if line.pyStartsWith "@@ " then
      let cf' :=
        match cf, ch with
        | some f, some h => some { f with hunks := f.hunks ++ [h] }
        | _, _ => cf
      let ch' :=
        match matchHunkHeader line with
        | some m =>
          let func_context := m.2.2.2.2.pyStrip
          some { header := line
                 old_start := m.1
                 old_count := (m.2.1).getD 1
                 new_start := m.2.2.1
                 new_count := (m.2.2.2.1).getD 1
                 function_context := func_context
                 lines := []
                 diffinfo := parseDiffHunkInfo diffinfo func_context }
        | none => ch  -- malformed hunk header: the source keeps the alias
      parse_diff_go diffinfo rest cf' ch' files
    else if line.pyStartsWith "+" || line.pyStartsWith "-" ||
        line.pyStartsWith " " || line = "" then
      match ch with
      | some h =>
        parse_diff_go diffinfo rest cf
          (some { h with lines := h.lines ++ [line] }) files
      | none => parse_diff_go diffinfo rest cf ch files
    else parse_diff_go diffinfo rest cf ch files

/-- `parse_diff` (the diff text is modeled as its list of lines, which is
what the source immediately converts it to). -/
def parse_diff (diff_lines : List String)
    (diffinfo : Option GlobalDiffInfoE) : List FileChangeE :=
  parse_diff_go diffinfo diff_lines none none []

/-! ### Well-formed unified diffs (as emitted by standard diff/patch
tooling), rendered to the line list `parse_diff` consumes. -/

/-- A hunk of a well-formed unified diff. -/
structure VHunk where
  oldStart : Nat
  oldCount : Nat
  newStart : Nat
  newCount : Nat
  ctx : String
  body : List String

/-- One file section of a well-formed unified diff. -/
structure VFile where
  pathA : String
  pathB : String
  preamble : List String
  hunks : List VHunk

/-- A decimal digit character. -/
def digitChar : Nat → Char
  | 0 => '0' | 1 => '1' | 2 => '2' | 3 => '3' | 4 => '4'
  | 5 => '5' | 6 => '6' | 7 => '7' | 8 => '8' | _ => '9'

/-- Decimal digits of a natural number (what standard tooling prints). -/
def natDigits (n : Nat) : List Char :=
  if h : n < 10 then [digitChar n]
  else natDigits (n / 10) ++ [digitChar (n % 10)]
termination_by n
decreasing_by exact Nat.div_lt_self (by omega) (by omega)

/-- Canonical hunk header `@@ -a,b +c,d @@ ctx`. -/
def renderHunkHeader (h : VHunk) : String :=
  "@@ -" ++ (natDigits h.oldStart).asString ++ "," ++
    (natDigits h.oldCount).asString ++ " +" ++
    (natDigits h.newStart).asString ++ "," ++
    (natDigits h.newCount).asString ++ " @@" ++
    (if h.ctx.pyIsEmpty then "" else " " ++ h.ctx)

/-- The rendered lines of one hunk. -/
def renderVHunk (h : VHunk) : List String :=
  renderHunkHeader h :: h.body

/-- The rendered lines of one file section. -/
def renderVFile (f : VFile) : List String :=
  ("diff --git a/" ++ f.pathA ++ " b/" ++ f.pathB) ::
    (f.preamble ++ (f.hunks.map renderVHunk).flatten)

/-- The rendered lines of a whole diff. -/
def renderVDiff (fs : List VFile) : List String :=
  (fs.map renderVFile).flatten

/-- No newline character (the `.` of the source's regexes does not cross
newlines; lines obtained by splitting the diff text on newlines satisfy
this by construction). -/
def noNewline (s : String) : Prop := '\n' ∉ s.toList

/-- A hunk body line as diff tools emit them: added, removed, context, or
the empty rendering of an empty context line. -/
def bodyLineOK (l : String) : Prop :=
  l = "" ∨ l.pyStartsWith "+" ∨ l.pyStartsWith "-" ∨ l.pyStartsWith " "

/-- Preamble lines (`--- a/...`, `+++ b/...`, `index ...`, mode lines, ...)
never look like a file header or a hunk header. -/
def preambleLineOK (l : String) : Prop :=
  ¬ l.pyStartsWith "diff --git " ∧ ¬ l.pyStartsWith "@@ "

/-- Well-formedness of one hunk. -/
def VHunkOK (h : VHunk) : Prop :=
  noNewline h.ctx ∧ ∀ b ∈ h.body, bodyLineOK b

/-- Well-formedness of one file section. -/
def VFileOK (f : VFile) : Prop :=
  f.pathA ≠ "" ∧ f.pathB ≠ "" ∧ noNewline f.pathA ∧ noNewline f.pathB ∧
  (∀ p ∈ f.preamble, preambleLineOK p) ∧ ∀ h ∈ f.hunks, VHunkOK h

/-- Well-formedness of a whole diff. -/
def ValidVDiff (fs : List VFile) : Prop := ∀ f ∈ fs, VFileOK f

/-! ### Concrete inputs used by the example theorems below -/

/-- A minimal `Change` record for group examples. -/
def exChange (file fn : String) (tl : Nat) : ChangeE :=
  ⟨0, 0, file, fn, "@@ -1 +1 @@", [], tl, none, none⟩

/-- Group touching `{A, B, C}`, 300 lines. -/
def simExA : FileGroupE :=
  ⟨some 1, .single "a.c", none, [exChange "a.c" "A, B, C" 300], 300⟩

/-- Group touching `{A, B}`, 200 lines. -/
def simExB : FileGroupE :=
  ⟨some 2, .single "b.c", none, [exChange "b.c" "A, B" 200], 200⟩

/-- Group touching `{A, B}`, 200 lines (same symbol set as `simExB`). -/
def simExC : FileGroupE :=
  ⟨some 3, .single "c.c", none, [exChange "c.c" "A, B" 200], 200⟩

/-- Tiny group used by the witness examples. -/
def wExA : FileGroupE :=
  ⟨some 1, .single "a.c", none, [exChange "a.c" "f" 10], 10⟩

/-- A second tiny group with the same symbol set. -/
def wExB : FileGroupE :=
  ⟨some 2, .single "b.c", none, [exChange "b.c" "f" 10], 10⟩

/-- The hunk of the C3 example: its body definition line belongs to the
same function the `@@` header names. -/
def cexHunk : HunkE :=
  ⟨"@@ -1,4 +1,4 @@ foo(void)", 1, 4, 1, 4, "foo(void)",
   ["-a;", " int foo(void)", " \x7b", "+  x = 1;"], none⟩

/-- The group produced by merging `simExB` into `simExA` (the first greedy
merge of the similarity pass on `[simExA, simExB, simExC]`). -/
def simExMerged : FileGroupE :=
  ⟨none, .multi ["a.c", "b.c"], some ["a.c", "b.c"],
   [exChange "a.c" "A, B, C" 300, exChange "b.c" "A, B" 200], 500⟩

/-! ### Change-conservation measures for the two group-merging passes -/

/-- The renumbering-independent payload of a `Change`: every field except
`file_num` and `change_num` (which both passes rewrite sequentially). -/
structure ChangePayload where
  file : String
  function : String
  hunk_header : String
  hunk_content : List String
  total_lines : Nat
  diffinfo : Option HunkDiffInfoE
  definition : Option String
deriving DecidableEq

/-- Project a `Change` to its payload. -/
def changePayload (c : ChangeE) : ChangePayload :=
  ⟨c.file, c.function, c.hunk_header, c.hunk_content, c.total_lines,
   c.diffinfo, c.definition⟩

/-- The multiset of payloads of a change list. -/
def chPayloads (l : List ChangeE) : Multiset ChangePayload :=
  (l.map changePayload : List ChangePayload)

/-- Payload multiset of one (possibly vacated) working-group slot. -/
def oPayloads (o : Option FileGroupE) : Multiset ChangePayload :=
  match o with
  | some g => chPayloads g.changes
  | none => 0

/-- `total_lines` of one (possibly vacated) working-group slot. -/
def oTotal (o : Option FileGroupE) : Nat :=
  match o with
  | some g => g.total_lines
  | none => 0

/-- All change payloads held by a list of groups. -/
def groupsPayloads (gs : List FileGroupE) : Multiset ChangePayload :=
  (gs.map (fun g => chPayloads g.changes)).sum

/-- Sum of the groups' `total_lines` fields. -/
def groupsTotal (gs : List FileGroupE) : Nat :=
  (gs.map FileGroupE.total_lines).sum

/-- All change payloads held by the similarity pass's working slots. -/
def stateP (gs : List (Option FileGroupE)) : Multiset ChangePayload :=
  (gs.map oPayloads).sum

/-- All change payloads held by the coalescing pass's accumulator groups. -/
def combPayloads (cs : List CombGroup) : Multiset ChangePayload :=
  (cs.map (fun c => chPayloads c.changes)).sum

/-- Sum of the accumulator groups' `total_lines` fields. -/
def combTotal (cs : List CombGroup) : Nat :=
  (cs.map CombGroup.total_lines).sum

/-- A change with non-sequential numbering (`file_num` 5, `change_num` 7),
used to show the passes rewrite those fields. -/
def cgA : ChangeE := ⟨5, 7, "a.c", "f", "@@ -1 +1 @@", [], 10, none, none⟩

/-- A second numbered change. -/
def cgB : ChangeE := ⟨6, 3, "b.c", "g", "@@ -2 +2 @@", [], 10, none, none⟩

/-- Group holding `cgA`. -/
def gA : FileGroupE := ⟨some 5, .single "a.c", none, [cgA], 10⟩

/-- Group holding `cgB`. -/
def gB : FileGroupE := ⟨some 6, .single "b.c", none, [cgB], 10⟩

/-! ### Tokenized image of a rendered hunk, and the parse-state steppers -/

/-- The `Hunk` record `parse_diff` builds for one rendered hunk. -/
def vHunkToHunkE (di : Option GlobalDiffInfoE) (hk : VHunk) : HunkE :=
  { header := renderHunkHeader hk
    old_start := digitsToNat (natDigits hk.oldStart)
    old_count := digitsToNat (natDigits hk.oldCount)
    new_start := digitsToNat (natDigits hk.newStart)
    new_count := digitsToNat (natDigits hk.newCount)
    function_context := hk.ctx.pyStrip
    lines := hk.body
    diffinfo := parseDiffHunkInfo di hk.ctx.pyStrip }

/-- Flush the pending hunk into the current file. -/
def pendFlush (f : FileChangeE) (ch : Option HunkE) : FileChangeE :=
  match ch with
  | some h => { f with hunks := f.hunks ++ [h] }
  | none => f

/-- The `(current_file, current_hunk)` state after the hunk loop of one
file section. -/
def hunksState (di : Option GlobalDiffInfoE) :
    FileChangeE → Option HunkE → List VHunk → FileChangeE × Option HunkE
  | f, ch, [] => (f, ch)
  | f, ch, hk :: hks =>
    hunksState di (pendFlush f ch) (some (vHunkToHunkE di hk)) hks

/-- A one-hunk file used by the round-trip witness. -/
def wVHunk : VHunk :=
  ⟨3, 4, 3, 5, "main(void)", [" int a;", "+b();", "+d();", "-c;", " e;"]⟩

/-- A witness file section with a two-line preamble. -/
def wVFile : VFile :=
  ⟨"x.c", "x.c", ["--- a/x.c", "+++ b/x.c"], [wVHunk]⟩

/-! ### Well-formedness predicates for the per-function call map -/

/-- No C keyword occurs in the set. -/
def kwFree (s : Finset String) : Prop := ∀ c ∈ s, c ∉ C_KEYWORDS

/-- Well-formedness of the per-function call map: no key maps to a set
containing itself, and no call set contains a C keyword. -/
def fcInv (fc : List (String × Finset String)) : Prop :=
  ∀ e ∈ fc, e.1 ∉ e.2 ∧ kwFree e.2

/-- Every per-line call set is keyword-free. -/
def l2cKW (l : List (Nat × Finset String)) : Prop := ∀ e ∈ l, kwFree e.2

/-! ## Theorems -/

/-! ### Facts about the modification-combining pass (claim C1) -/

theorem addedSum_nil : addedSum [] = 0 := rfl

theorem addedSum_cons (s : ModSeg) (t : List ModSeg) :
    addedSum (s :: t) = mod_added s + addedSum t := by
  simp [addedSum]

theorem addedSum_append (a b : List ModSeg) :
    addedSum (a ++ b) = addedSum a + addedSum b := by
  simp [addedSum]

/-- If a group's added total is zero, it contains no segment with a positive
added count. -/
theorem addedSum_zero_filter (c : List ModSeg) (h : addedSum c = 0) :
    c.filter (fun s => 0 < mod_added s) = [] := by
  induction c with
  | nil => rfl
  | cons s t ih =>
    rw [addedSum_cons] at h
    have h1 : mod_added s = 0 := by omega
    have h2 : addedSum t = 0 := by omega
    simp [List.filter, h1, ih h2]

/-- The partition produced by the pass concatenates back to the input. -/
theorem modification_combine_go_flatten (segs : List ModSeg) :
    ∀ cur n, (modification_combine_go segs cur n).flatten = cur ++ segs := by
  induction segs with
  | nil =>
    intro cur n
    simp only [modification_combine_go]
    by_cases h : cur.isEmpty
    · simp [h, List.isEmpty_iff.mp h]
    · simp [h]
  | cons s rest ih =>
    intro cur n
    simp only [modification_combine_go]
    split
    · simp [ih]
    · simp [ih]

/-- The first group of a run started with a nonempty accumulator extends
that accumulator. -/
theorem modification_combine_go_first (segs : List ModSeg) :
    ∀ cur n, cur ≠ [] → ∃ t rest,
      modification_combine_go segs cur n = (cur ++ t) :: rest := by
  induction segs with
  | nil =>
    intro cur n h
    refine ⟨[], [], ?_⟩
    simp [modification_combine_go, h]
  | cons s rest ih =>
    intro cur n h
    simp only [modification_combine_go]
    split
    · exact ⟨[], modification_combine_go rest [s] (mod_added s), by simp⟩
    · obtain ⟨t, r, hr⟩ := ih (cur ++ [s]) (n + mod_added s) (by simp)
      exact ⟨[s] ++ t, r, by simpa using hr⟩

/-- Invariant proof: every emitted group is nonempty, and either fits the
added-line cap or contains exactly one segment with a positive added
count. -/
theorem modification_combine_go_good (segs : List ModSeg) :
    ∀ cur n, n = addedSum cur →
    (addedSum cur ≤ MAX_COMBINED_ADDED_LINES ∨
      (cur.filter (fun s => 0 < mod_added s)).length = 1) →
    ∀ c ∈ modification_combine_go segs cur n,
      c ≠ [] ∧
      (addedSum c ≤ MAX_COMBINED_ADDED_LINES ∨
        (c.filter (fun s => 0 < mod_added s)).length = 1) := by
  induction segs with
  | nil =>
    intro cur n hn hg c hc
    simp only [modification_combine_go] at hc
    by_cases h : cur.isEmpty
    · simp [h] at hc
    · simp [h] at hc
      subst hc
      exact ⟨fun he => by simp [he] at h, hg⟩
  | cons s rest ih =>
    intro cur n hn hg c hc
    simp only [modification_combine_go] at hc
    by_cases h : 0 < n ∧ MAX_COMBINED_ADDED_LINES < n + mod_added s
    · rw [if_pos h] at hc
      rcases List.mem_cons.mp hc with rfl | hc'
      · refine ⟨?_, hg⟩
        intro he
        rw [he] at hn
        simp [addedSum_nil] at hn
        omega
      · refine ih [s] (mod_added s) (by simp [addedSum]) ?_ c hc'
        by_cases hA : mod_added s ≤ MAX_COMBINED_ADDED_LINES
        · left
          rw [addedSum_cons, addedSum_nil]
          omega
        · right
          have hpos : 0 < mod_added s := by
            unfold MAX_COMBINED_ADDED_LINES at hA
            omega
          simp [List.filter, hpos]
    · rw [if_neg h] at hc
      refine ih (cur ++ [s]) (n + mod_added s)
        (by rw [hn, addedSum_append, addedSum_cons, addedSum_nil]; omega) ?_
        c hc
      push_neg at h
      by_cases hzero : n = 0
      · have hcur : addedSum cur = 0 := by omega
        by_cases hA : mod_added s ≤ MAX_COMBINED_ADDED_LINES
        · left
          rw [addedSum_append, hcur, addedSum_cons, addedSum_nil]
          omega
        · right
          have hpos : 0 < mod_added s := by
            unfold MAX_COMBINED_ADDED_LINES at hA
            omega
          rw [List.filter_append, addedSum_zero_filter cur hcur]
          simp [List.filter, hpos]
      · have hpos : 0 < n := Nat.pos_of_ne_zero hzero
        left
        rw [addedSum_append, ← hn, addedSum_cons, addedSum_nil]
        have := h hpos
        omega

/-- Invariant proof of the boundary property: every split point of the pass
happens exactly at an overflow (the flushed group has a positive added
total, and appending the next group's first segment would exceed the
cap). -/
theorem modification_combine_go_chain (segs : List ModSeg) :
    ∀ cur n, n = addedSum cur →
    ∀ k, k + 1 < (modification_combine_go segs cur n).length →
      0 < addedSum ((modification_combine_go segs cur n).getD k []) ∧
      MAX_COMBINED_ADDED_LINES <
        addedSum ((modification_combine_go segs cur n).getD k []) +
        mod_added (((modification_combine_go segs cur n).getD (k + 1)
          []).headD ⟨"", [], none⟩) := by
  induction segs with
  | nil =>
    intro cur n hn k hk
    exfalso
    by_cases h : cur.isEmpty <;>
      simp [modification_combine_go, h] at hk
  | cons s rest ih =>
    intro cur n hn k hk
    simp only [modification_combine_go] at hk ⊢
    by_cases h : 0 < n ∧ MAX_COMBINED_ADDED_LINES < n + mod_added s
    · rw [if_pos h] at hk ⊢
      match k with
      | 0 =>
        obtain ⟨t, r, hr⟩ :=
          modification_combine_go_first rest [s] (mod_added s) (by simp)
        constructor
        · simpa [← hn] using h.1
        · rw [List.getD_cons_zero, List.getD_cons_succ, hr]
          simpa [← hn] using h.2
      | k' + 1 =>
        have := ih [s] (mod_added s) (by simp [addedSum]) k'
          (by simpa using hk)
        simpa using this
    · rw [if_neg h] at hk ⊢
      exact ih (cur ++ [s]) (n + mod_added s)
        (by rw [hn, addedSum_append, addedSum_cons, addedSum_nil]; omega) k hk

/-- Evaluation helper: a block of `n` added lines counts `n`. -/
theorem count_added_replicate (n : Nat) :
    count_added_lines (List.replicate n "+x") = n := by
  induction n with
  | zero => rfl
  | succ n ih =>
    rw [List.replicate_succ]
    show (List.filter _ ("+x" :: List.replicate n "+x")).length = n + 1
    rw [List.filter_cons_of_pos (by decide)]
    simpa [count_added_lines] using ih

/-- C1 counterexample: the claim fails on the code.  A pure-deletion segment
(0 added lines) followed by a segment with 251 added lines is merged into a
SINGLE `Change` of TWO segments whose added-line total is 251, exceeding
`MAX_COMBINED_ADDED_LINES = 250` — the flush guard `current_added > 0`
never fires while the running total is zero, so the oversized `Change` is
not a single original hunk. -/
theorem C1_counterexample :
    modification_combine
      [⟨"@@ -1,1 +1,0 @@", ["-x"], none⟩,
       ⟨"@@ -9,0 +9,251 @@", List.replicate 251 "+x", none⟩] =
      [[⟨"@@ -1,1 +1,0 @@", ["-x"], none⟩,
        ⟨"@@ -9,0 +9,251 @@", List.replicate 251 "+x", none⟩]] ∧
    (2 ≤ ([(⟨"@@ -1,1 +1,0 @@", ["-x"], none⟩ : ModSeg),
        ⟨"@@ -9,0 +9,251 @@", List.replicate 251 "+x", none⟩]).length) ∧
    addedSum [⟨"@@ -1,1 +1,0 @@", ["-x"], none⟩,
        ⟨"@@ -9,0 +9,251 @@", List.replicate 251 "+x", none⟩] = 251 ∧
    MAX_COMBINED_ADDED_LINES < 251 := by
  have h251 : mod_added ⟨"@@ -9,0 +9,251 @@", List.replicate 251 "+x", none⟩
      = 251 := count_added_replicate 251
  have h0 : mod_added ⟨"@@ -1,1 +1,0 @@", ["-x"], none⟩ = 0 := by decide
  refine ⟨?_, by decide, ?_, by decide⟩
  · simp only [modification_combine, modification_combine_go, h251, h0]
    norm_num
  · rw [addedSum_cons, addedSum_cons, addedSum_nil, h0, h251]

/-- C1 (amended): for every per-`(file, function)` segment list, the
modification-combining pass partitions the segments into the produced
`Change`s (nothing dropped or duplicated, no empty `Change`); every
produced `Change` either has an added-line total within
`MAX_COMBINED_ADDED_LINES`, or exactly one of its merged segments has a
positive added-line count (the single oversized hunk — segments with zero
added lines may be merged with it, since a zero running total never
triggers a flush); and a new `Change` starts exactly when the running
added-line total is positive and the next segment would push it over the
cap. -/
theorem C1_modification_pass_cap (segs : List ModSeg) :
    (modification_combine segs).flatten = segs ∧
    (∀ c ∈ modification_combine segs,
      c ≠ [] ∧
      (addedSum c ≤ MAX_COMBINED_ADDED_LINES ∨
        (c.filter (fun s => 0 < mod_added s)).length = 1)) ∧
    (∀ k, k + 1 < (modification_combine segs).length →
      0 < addedSum ((modification_combine segs).getD k []) ∧
      MAX_COMBINED_ADDED_LINES <
        addedSum ((modification_combine segs).getD k []) +
        mod_added (((modification_combine segs).getD (k + 1) []).headD
          ⟨"", [], none⟩)) :=
  ⟨by simpa using modification_combine_go_flatten segs [] 0,
   fun c hc =>
    modification_combine_go_good segs [] 0 rfl (Or.inl (by decide)) c hc,
   fun k hk => modification_combine_go_chain segs [] 0 rfl k hk⟩

/-- C1 witness: the amended theorem applied to a concrete two-segment list
(both segments merge into one `Change`, whose added total obeys the cap). -/
theorem C1_witness :
    ([⟨"@@ -1,2 +1,3 @@", ["+a"], none⟩, ⟨"@@ -8,2 +9,3 @@", ["+b"], none⟩]
        : List ModSeg) ∈
      modification_combine
        [⟨"@@ -1,2 +1,3 @@", ["+a"], none⟩,
         ⟨"@@ -8,2 +9,3 @@", ["+b"], none⟩] ∧
    (addedSum [⟨"@@ -1,2 +1,3 @@", ["+a"], none⟩,
        ⟨"@@ -8,2 +9,3 @@", ["+b"], none⟩] ≤ MAX_COMBINED_ADDED_LINES ∨
      (([⟨"@@ -1,2 +1,3 @@", ["+a"], none⟩,
          ⟨"@@ -8,2 +9,3 @@", ["+b"], none⟩] : List ModSeg).filter
        (fun s => 0 < mod_added s)).length = 1) :=
  ⟨by decide,
   ((C1_modification_pass_cap
      [⟨"@@ -1,2 +1,3 @@", ["+a"], none⟩,
       ⟨"@@ -8,2 +9,3 @@", ["+b"], none⟩]).2.1
      [⟨"@@ -1,2 +1,3 @@", ["+a"], none⟩,
       ⟨"@@ -8,2 +9,3 @@", ["+b"], none⟩] (by decide)).2⟩

/-! ### Claims C5 and C8: the walk-back resolver -/

/-- C5: the code, not the claim, is wrong here.  In the walk-back of
`find_symbol_for_line_python`, the line `"int x;"` is reached at index 2
while resolving index 3; it does not begin with whitespace and matches none
of the declaration patterns (not a function definition, type definition or
`#define`, and not skipped as blank/comment/false-positive), so per the
claim the search should stop and return no symbol.  Instead the embedded
loop — whose source body ends with the no-op
`if line and line[0].isspace(): continue` — keeps walking and returns the
unrelated earlier definition `"int foo(void) {"`. -/
theorem C5_walkback_does_not_stop :
    (firstIsSpace "int x;" = false ∧
     is_false_positive_python "int x;" = false ∧
     is_function_definition_python "int x;"
       ["int foo(void) \x7b", "\x7d", "int x;", "  y = 1;"] 2 = false ∧
     is_type_definition_python "int x;" = false ∧
     ("int x;".pyStrip.pyStartsWith "#define ") = false) ∧
    find_symbol_for_line_python
      ["int foo(void) \x7b", "\x7d", "int x;", "  y = 1;"] 3 =
      some "int foo(void) \x7b" := by
  exact ⟨by decide, by decide⟩

/-- C8: the resolver is total (the embedding is a total function); an index
at or past the end of the line list yields `none`; and an unresolved line
contributes no symbol via `extract_symbols_by_walkback_python` and no
attributed calls via the attribution step (when the hunk-header fallback is
also absent). -/
theorem C8_resolver_total (lines : List String) (idx : Nat) :
    (lines.length ≤ idx → find_symbol_for_line_python lines idx = none) ∧
    (find_symbol_for_line_python lines idx = none →
      extract_symbols_by_walkback_python lines [idx] = ∅) ∧
    (∀ (fc : List (String × Finset String)) (calls : Finset String),
      find_symbol_for_line_python lines idx = none →
      attributeStep lines none fc (idx, calls) = fc) := by
  refine ⟨?_, ?_, ?_⟩
  · intro h
    simp [find_symbol_for_line_python, h]
  · intro h
    simp [extract_symbols_by_walkback_python, h]
  · intro fc calls h
    simp [attributeStep, h]

/-- C8 witness: the totality theorem applied at a concrete out-of-range
index. -/
theorem C8_witness :
    find_symbol_for_line_python ["  x;"] 5 = none ∧
    extract_symbols_by_walkback_python ["  x;"] [5] = ∅ ∧
    attributeStep ["  x;"] none [] (5, {"a"}) = [] :=
  ⟨(C8_resolver_total ["  x;"] 5).1 (by decide),
   (C8_resolver_total ["  x;"] 5).2.1
     ((C8_resolver_total ["  x;"] 5).1 (by decide)),
   (C8_resolver_total ["  x;"] 5).2.2 [] {"a"}
     ((C8_resolver_total ["  x;"] 5).1 (by decide))⟩

/-! ### Claim C9: full-definition extraction -/

/-- The closing-brace line returned by the scan loop lies within its fuel
window. -/
theorem ffeGo_bound (lines : List String) :
    ∀ fuel i st e, ffeGo lines fuel i st = some e → i ≤ e ∧ e < i + fuel := by
  intro fuel
  induction fuel with
  | zero => intro i st e h; simp [ffeGo] at h
  | succ f ih =>
    intro i st e h
    simp only [ffeGo] at h
    split at h
    · cases h; omega
    · have := ih (i + 1) _ e h
      omega

/-- C9: `get_definition_for_change` returns `none`, or the file text from
the start line located by the walk-back through the matching-closing-brace
line found by the depth-tracking scan — which never examines more than 2000
lines past the start line — truncated to its first 100 lines plus the
ellipsis marker when the extracted definition exceeds 10000 characters. -/
theorem C9_definition_extraction (file_lines : List String)
    (function_name : String) (hunk_new_start : Nat) :
    get_definition_for_change file_lines function_name hunk_new_start =
      none ∨
    ∃ start_line end_line,
      find_function_start file_lines (hunk_new_start - 1) = some start_line ∧
      find_function_end file_lines start_line = some end_line ∧
      start_line ≤ end_line ∧
      end_line < start_line + 2000 ∧
      end_line < file_lines.length ∧
      get_definition_for_change file_lines function_name hunk_new_start =
        some
          (if 10000 < (joinNl ((file_lines.drop start_line).take
              (end_line + 1 - start_line))).pyLen then
            joinNl (((file_lines.drop start_line).take
              (end_line + 1 - start_line)).take 100) ++
              "\n... [truncated, definition too long]\n"
          else joinNl ((file_lines.drop start_line).take
            (end_line + 1 - start_line))) := by
  unfold get_definition_for_change
  split
  · left; rfl
  · dsimp only
    split
    · left; rfl
    · cases hs : find_function_start file_lines (hunk_new_start - 1) with
      | none => left; rfl
      | some s =>
        cases he : find_function_end file_lines s with
        | none => left; dsimp only; rw [he]
        | some e =>
          right
          have hb := ffeGo_bound file_lines
            (min file_lines.length (s + 2000) - s) s
            ⟨0, false, false, false, false⟩ e
            (by simpa [find_function_end] using he)
          have h1 : min file_lines.length (s + 2000) ≤ file_lines.length :=
            Nat.min_le_left _ _
          have h2 : min file_lines.length (s + 2000) ≤ s + 2000 :=
            Nat.min_le_right _ _
          refine ⟨s, e, rfl, ?_, by omega, by omega, by omega, ?_⟩
          · rw [he]
          · by_cases hc : 10000 <
                (joinNl (List.take (e + 1 - s) (List.drop s file_lines))).pyLen
            · simp [he, hc]
            · simp [he, hc]

/-! ### Claims C6 and C2: the similarity pass -/

/-- Fold invariant preservation. -/
theorem foldl_inv {α β : Type _} (P : β → Prop) (f : β → α → β)
    (hstep : ∀ b a, P b → P (f b a)) :
    ∀ (l : List α) (b : β), P b → P (l.foldl f b) := by
  intro l
  induction l with
  | nil => intro b hb; exact hb
  | cons a t ih => intro b hb; exact ih (f b a) (hstep b a hb)

/-- Any pair selected by `findBestPair` satisfies the merge guards: both
slots are live, the combined line total fits the similarity cap, and the
overlap ratio reaches the threshold. -/
theorem findBestPair_sound (gs : List (Option FileGroupE))
    (fs : List (Finset String)) (i j : Nat)
    (h : (findBestPair gs fs).2 = some (i, j)) :
    ∃ gi gj, gs.getD i none = some gi ∧ gs.getD j none = some gj ∧
      gi.total_lines + gj.total_lines ≤ MAX_SIMILARITY_COMBINED_LINES ∧
      MIN_FUNCTION_OVERLAP_RATIO ≤
        calculate_function_overlap (fs.getD i ∅) (fs.getD j ∅) := by
  let Cond : Nat → Nat → Prop := fun i' j' =>
    ∃ gi gj, gs.getD i' none = some gi ∧ gs.getD j' none = some gj ∧
      gi.total_lines + gj.total_lines ≤ MAX_SIMILARITY_COMBINED_LINES ∧
      MIN_FUNCTION_OVERLAP_RATIO ≤
        calculate_function_overlap (fs.getD i' ∅) (fs.getD j' ∅)
  let P : ℚ × Option (Nat × Nat) → Prop := fun b =>
    ∀ i' j', b.2 = some (i', j') → Cond i' j'
  suffices hP : P (findBestPair gs fs) from hP i j h
  unfold findBestPair
  apply foldl_inv P
  · intro b a hb
    cases hgi : gs.getD a none with
    | none => simpa [hgi] using hb
    | some gi =>
      simp only [hgi]
      apply foldl_inv P
      · intro b' a' hb'
        cases hgj : gs.getD a' none with
        | none => simpa [hgj] using hb'
        | some gj =>
          simp only [hgj]
          split
          · exact hb'
          · split
            · rename_i hsz hcond
              intro i' j' heq
              simp only at heq
              cases heq
              exact ⟨gi, gj, hgi, hgj, by omega, hcond.1⟩
            · exact hb'
      · exact hb
  · intro i' j' h'
    simp only at h'
    exact absurd h' (by simp)

/-- Identical non-empty sets overlap with ratio 1. -/
theorem overlap_self (A : Finset String) (hA : A ≠ ∅) :
    calculate_function_overlap A A = 1 := by
  unfold calculate_function_overlap
  rw [if_neg (by simp [hA])]
  have hc : ((A.card : Nat) : ℚ) ≠ 0 := by
    have := Finset.card_pos.mpr (Finset.nonempty_iff_ne_empty.mpr hA)
    exact_mod_cast Nat.pos_iff_ne_zero.mp this
  simp [Finset.inter_self, min_self, div_self hc]

/-- Overlap of the two distinct example symbol sets. -/
theorem simEx_overlap_AB :
    calculate_function_overlap {"A","B","C"} {"A","B"} = 1 := by
  unfold calculate_function_overlap
  rw [if_neg (by decide)]
  dsimp only
  rw [show (({"A","B","C"} : Finset String) ∩ {"A","B"}).card = 2 from
      by decide,
    show ({"A","B","C"} : Finset String).card = 3 from by decide,
    show ({"A","B"} : Finset String).card = 2 from by decide]
  norm_num

/-- First best-pair search of the example run: the scan hits `(0, 1)` first
among the three overlap-1 pairs, and the later ties do not displace it. -/
theorem simEx_findBestPair_first :
    (findBestPair [some simExA, some simExB, some simExC]
      [{"A","B","C"}, {"A","B"}, {"A","B"}]).2 = some (0, 1) := by
  have hr : List.range 3 = [0, 1, 2] := by decide
  have hr1 : List.range' 1 (3 - (0 + 1)) = [1, 2] := by decide
  have hr2 : List.range' 2 (3 - (1 + 1)) = [2] := by decide
  have hr3 : List.range' 3 (3 - (2 + 1)) = [] := by decide
  simp only [findBestPair, hr, hr1, hr2, hr3, List.foldl,
    List.getElem?_cons_zero, List.getElem?_cons_succ, List.getElem?_nil,
    Option.getD_some, Option.getD_none, List.length_cons, List.length_nil,
    MAX_SIMILARITY_COMBINED_LINES, MIN_FUNCTION_OVERLAP_RATIO]
  norm_num [simEx_overlap_AB,
    overlap_self ({"A","B"} : Finset String) (by decide),
    show simExA.total_lines = 300 from rfl,
    show simExB.total_lines = 200 from rfl,
    show simExC.total_lines = 200 from rfl]

/-- The merge step of the example run. -/
theorem simEx_mergeStep :
    simMergeStep [some simExA, some simExB, some simExC]
      [{"A","B","C"}, {"A","B"}, {"A","B"}] 0 1 =
    ([some simExMerged, none, some simExC],
     [{"A","B","C"}, ∅, {"A","B"}]) := by
  decide

/-- After the first merge no further pair fits the cap (500 + 200 > 500),
so the loop stops. -/
theorem simEx_findBestPair_second :
    (findBestPair [some simExMerged, none, some simExC]
      [{"A","B","C"}, ∅, {"A","B"}]).2 = none := by decide

/-- The full `while changed` loop of the example run. -/
theorem simEx_loop :
    simLoop 3 [some simExA, some simExB, some simExC]
      [{"A","B","C"}, {"A","B"}, {"A","B"}] =
    ([some simExMerged, none, some simExC],
     [{"A","B","C"}, ∅, {"A","B"}]) := by
  rw [show (3:Nat) = 2 + 1 from rfl]
  simp only [simLoop, simEx_findBestPair_first, simEx_mergeStep]
  rw [simEx_findBestPair_second]

/-- The similarity pass on the example input. -/
theorem simEx_combine :
    combine_groups_by_similarity [simExA, simExB, simExC] =
    renumberGroups ([some simExMerged, none, some simExC].filterMap id) := by
  unfold combine_groups_by_similarity
  rw [if_neg (by decide)]
  simp only [List.map, List.length_cons, List.length_nil,
    show extract_group_functions simExA = {"A","B","C"} from by decide,
    show extract_group_functions simExB = {"A","B"} from by decide,
    show extract_group_functions simExC = {"A","B"} from by decide]
  rw [simEx_loop]

/-- C2 counterexample: the claim fails on the code.  Groups `simExB` and
`simExC` have identical non-empty symbol sets `{A, B}` and combined size
400 < 500, yet the pass does not put them into one group: the greedy scan
first merges `simExA` (set `{A, B, C}`, 300 lines, overlap 1 with both)
with `simExB`, after which the merged group plus `simExC` would exceed the
cap (700 > 500), so `simExB`'s change and `simExC`'s change end up in
different output groups. -/
theorem C2_counterexample :
    extract_group_functions simExB = extract_group_functions simExC ∧
    extract_group_functions simExB ≠ ∅ ∧
    simExB.total_lines + simExC.total_lines <
      MAX_SIMILARITY_COMBINED_LINES ∧
    ¬ ∃ g ∈ combine_groups_by_similarity [simExA, simExB, simExC],
        (∃ c ∈ g.changes, c.file = "b.c") ∧
        (∃ c ∈ g.changes, c.file = "c.c") := by
  refine ⟨by decide, by decide, by decide, ?_⟩
  rw [simEx_combine]
  decide

/-- C2 (amended): in any single merge step of
`combine_groups_by_similarity`, the selected pair of groups has
intersecting — never disjoint — current symbol sets and a combined line
total within `MAX_SIMILARITY_COMBINED_LINES`; and a pair of groups with
identical non-empty symbol sets and combined size within the cap is
merge-eligible (its overlap ratio is 1, at or above the threshold).
Because merges are greedy and union the symbol sets, an identical-set pair
may still end up in different output groups, and originally disjoint
groups may end up in the same output group transitively. -/
theorem C2_similarity_pass (gs : List (Option FileGroupE))
    (fs : List (Finset String)) (i j : Nat) (A : Finset String) :
    ((findBestPair gs fs).2 = some (i, j) →
      (fs.getD i ∅) ∩ (fs.getD j ∅) ≠ ∅ ∧
      ∃ gi gj, gs.getD i none = some gi ∧ gs.getD j none = some gj ∧
        gi.total_lines + gj.total_lines ≤ MAX_SIMILARITY_COMBINED_LINES) ∧
    (A ≠ ∅ →
      calculate_function_overlap A A = 1 ∧
      MIN_FUNCTION_OVERLAP_RATIO ≤ calculate_function_overlap A A) := by
  constructor
  · intro h
    obtain ⟨gi, gj, hgi, hgj, hsz, hov⟩ := findBestPair_sound gs fs i j h
    refine ⟨?_, gi, gj, hgi, hgj, hsz⟩
    intro hdisj
    unfold calculate_function_overlap at hov
    by_cases hAe : fs.getD i ∅ = ∅ ∨ fs.getD j ∅ = ∅
    · rw [if_pos hAe] at hov
      norm_num [ MIN_FUNCTION_OVERLAP_RATIO] at hov
    · rw [if_neg hAe] at hov
      dsimp only at hov
      rw [hdisj] at hov
      simp at hov
      norm_num [ MIN_FUNCTION_OVERLAP_RATIO] at hov
  · intro hA
    have h1 := overlap_self A hA
    exact ⟨h1, by rw [h1]; norm_num [ MIN_FUNCTION_OVERLAP_RATIO]⟩

/-- Overlap of a set with itself (witness-sized instance). -/
theorem wEx_overlap : calculate_function_overlap {"f"} {"f"} = 1 :=
  overlap_self _ (by decide)

/-- Best-pair search on the two-group witness input. -/
theorem wEx_findBestPair :
    (findBestPair [some wExA, some wExB]
      [extract_group_functions wExA, extract_group_functions wExB]).2 =
      some (0, 1) := by
  have h1 : extract_group_functions wExA = {"f"} := by decide
  have h2 : extract_group_functions wExB = {"f"} := by decide
  have hr : List.range 2 = [0, 1] := by decide
  have hr1 : List.range' 1 (2 - (0 + 1)) = [1] := by decide
  have hr2 : List.range' 2 (2 - (1 + 1)) = [] := by decide
  simp only [findBestPair, hr, hr1, hr2, h1, h2, wEx_overlap,
    MAX_SIMILARITY_COMBINED_LINES, MIN_FUNCTION_OVERLAP_RATIO, List.foldl,
    List.getElem?_cons_zero, List.getElem?_cons_succ, List.getElem?_nil,
    Option.getD_some, Option.getD_none, List.length_cons, List.length_nil]
  norm_num [wEx_overlap, show wExA.total_lines = 10 from rfl,
    show wExB.total_lines = 10 from rfl]

/-- C2 witness: the amended theorem applied to the concrete two-group
input whose best pair is `(0, 1)`, and to the concrete set `{"f"}`. -/
theorem C2_witness :
    (([extract_group_functions wExA, extract_group_functions wExB].getD 0 ∅)
        ∩
      ([extract_group_functions wExA, extract_group_functions wExB].getD 1 ∅)
        ≠ ∅ ∧
     ∃ gi gj, [some wExA, some wExB].getD 0 none = some gi ∧
       [some wExA, some wExB].getD 1 none = some gj ∧
       gi.total_lines + gj.total_lines ≤ MAX_SIMILARITY_COMBINED_LINES) ∧
    (calculate_function_overlap {"f"} {"f"} = 1 ∧
     MIN_FUNCTION_OVERLAP_RATIO ≤ calculate_function_overlap {"f"} {"f"}) :=
  ⟨(C2_similarity_pass [some wExA, some wExB]
      [extract_group_functions wExA, extract_group_functions wExB] 0 1
      {"f"}).1 wEx_findBestPair,
   (C2_similarity_pass [some wExA, some wExB]
      [extract_group_functions wExA, extract_group_functions wExB] 0 1
      {"f"}).2 (by decide)⟩

/-- C6: `calculate_function_overlap` of two non-empty sets is the
intersection cardinality divided by the smaller set's cardinality, and the
similarity pass only ever merges a pair whose combined line total is
within `MAX_SIMILARITY_COMBINED_LINES` and whose overlap ratio is at least
` MIN_FUNCTION_OVERLAP_RATIO`. -/
theorem C6_overlap_formula_and_guard (A B : Finset String)
    (hA : A ≠ ∅) (hB : B ≠ ∅) (gs : List (Option FileGroupE))
    (fs : List (Finset String)) (i j : Nat) :
    calculate_function_overlap A B =
      ((A ∩ B).card : ℚ) / ((min A.card B.card : Nat) : ℚ) ∧
    ((findBestPair gs fs).2 = some (i, j) →
      ∃ gi gj, gs.getD i none = some gi ∧ gs.getD j none = some gj ∧
        gi.total_lines + gj.total_lines ≤ MAX_SIMILARITY_COMBINED_LINES ∧
        MIN_FUNCTION_OVERLAP_RATIO ≤
          calculate_function_overlap (fs.getD i ∅) (fs.getD j ∅)) :=
  ⟨by simp [calculate_function_overlap, hA, hB],
   fun h => findBestPair_sound gs fs i j h⟩

/-- C6 witness: the theorem applied to concrete non-empty sets and to the
concrete two-group input whose best pair is `(0, 1)`. -/
theorem C6_witness :
    calculate_function_overlap {"f"} {"f", "g"} =
      ((({"f"} : Finset String) ∩ {"f", "g"}).card : ℚ) /
        ((min ({"f"} : Finset String).card
          ({"f", "g"} : Finset String).card : Nat) : ℚ) ∧
    (∃ gi gj, [some wExA, some wExB].getD 0 none = some gi ∧
      [some wExA, some wExB].getD 1 none = some gj ∧
      gi.total_lines + gj.total_lines ≤ MAX_SIMILARITY_COMBINED_LINES ∧
      MIN_FUNCTION_OVERLAP_RATIO ≤ calculate_function_overlap
        ([extract_group_functions wExA, extract_group_functions wExB].getD
          0 ∅)
        ([extract_group_functions wExA, extract_group_functions wExB].getD
          1 ∅)) :=
  ⟨(C6_overlap_formula_and_guard {"f"} {"f","g"} (by decide) (by decide)
      [some wExA, some wExB]
      [extract_group_functions wExA, extract_group_functions wExB] 0 1).1,
   (C6_overlap_formula_and_guard {"f"} {"f","g"} (by decide) (by decide)
      [some wExA, some wExB]
      [extract_group_functions wExA, extract_group_functions wExB] 0 1).2
     wEx_findBestPair⟩

/-! ### Claim C3: the hunk segmenter's two-way split -/

/-- C3 counterexample: the claim fails on the code.  For `cexHunk` the
segmenter finds zero new-function spans and
`find_changed_function_in_hunk` finds the body definition
`" int foo(void)"` at index 1 — but that definition IS the header's
function (`extract_function_from_context "foo(void)" = "foo"`): the code
never compares the body definition against the header hint. -/
theorem C3_counterexample :
    find_function_definitions_in_hunk cexHunk.lines = [] ∧
    find_changed_function_in_hunk cexHunk.lines = some ("foo", 1) ∧
    extract_function_from_context cexHunk.function_context = "foo" := by
  exact ⟨by decide, by decide, by decide⟩

/-- C3 (amended): for every hunk in which the segmenter finds zero
new-function spans but `find_changed_function_in_hunk` finds a definition
line in the hunk body (which may or may not be the header's function —
the code performs no such comparison), if changed (`+`/`-`) lines exist
before that definition line, `split_hunk_by_functions` returns exactly two
segments, neither marked new-definition: the first named by the header's
function hint and containing the lines before the body definition, the
second named by the body definition's function and containing the lines
from the definition onward. -/
theorem C3_split_two_segments (hunk : HunkE) (file_path : String)
    (gdi : Option GlobalDiffInfoE) (bf : String) (bi : Nat)
    (h0 : find_function_definitions_in_hunk hunk.lines = [])
    (h1 : find_changed_function_in_hunk hunk.lines = some (bf, bi))
    (h2 : (List.range bi).any
      (fun j => isChangedLine (hunk.lines.getD j "")) = true) :
    split_hunk_by_functions hunk file_path gdi =
      [(extract_function_from_context hunk.function_context, hunk.header,
        hunk.header :: hunk.lines.take bi, false,
        if extract_function_from_context hunk.function_context ≠ "unknown"
        then
          lookup_diffinfo hunk gdi
            (extract_function_from_context hunk.function_context)
        else hunk.diffinfo),
       (bf, hunk.header, hunk.header :: hunk.lines.drop bi, false,
        lookup_diffinfo hunk gdi bf)] := by
  unfold split_hunk_by_functions
  rw [h0, h1]
  simp only [List.length_nil, if_pos rfl, h2, if_true]

/-- C3 witness: the amended theorem applied to the concrete hunk `cexHunk`
(whose header hint and body function coincide). -/
theorem C3_witness :
    split_hunk_by_functions cexHunk "fs/f.c" none =
      [("foo", cexHunk.header, cexHunk.header :: cexHunk.lines.take 1,
        false, none),
       ("foo", cexHunk.header, cexHunk.header :: cexHunk.lines.drop 1,
        false, none)] := by
  have h := C3_split_two_segments cexHunk "fs/f.c" none "foo" 1
    (by decide) (by decide) (by decide)
  rw [h]
  decide

/-! ### Claim C10: conservation of changes across the group-merging passes -/

theorem chPayloads_append (l₁ l₂ : List ChangeE) :
    chPayloads (l₁ ++ l₂) = chPayloads l₁ + chPayloads l₂ := by
  simp [chPayloads]

theorem getD_len_le {α : Type _} (d : α) :
    ∀ (l : List α) (i : Nat), l.length ≤ i → l.getD i d = d := by
  intro l
  induction l with
  | nil => intro i _; cases i <;> rfl
  | cons a t ih =>
    intro i h
    cases i with
    | zero => simp at h
    | succ n => exact ih n (by simpa using h)

theorem getD_set_ne {α : Type _} (d b : α) :
    ∀ (l : List α) (i j : Nat), i ≠ j → (l.set i b).getD j d = l.getD j d := by
  intro l
  induction l with
  | nil => intro i j _; rfl
  | cons a t ih =>
    intro i j hij
    cases i with
    | zero =>
      cases j with
      | zero => exact absurd rfl hij
      | succ m => rfl
    | succ n =>
      cases j with
      | zero => rfl
      | succ m =>
        show (t.set n b).getD m d = t.getD m d
        exact ih n m (by omega)

theorem sum_map_set {M α : Type _} [AddCommMonoid M] (f : α → M) (d : α) :
    ∀ (l : List α) (i : Nat) (b : α), i < l.length →
      ((l.set i b).map f).sum + f (l.getD i d) = (l.map f).sum + f b := by
  intro l
  induction l with
  | nil => intro i b h; simp at h
  | cons a t ih =>
    intro i b h
    cases i with
    | zero =>
      show (f b + (t.map f).sum) + f a = (f a + (t.map f).sum) + f b
      abel
    | succ n =>
      have ht : n < t.length := by simpa using h
      show (f a + ((t.set n b).map f).sum) + f (t.getD n d) =
        (f a + (t.map f).sum) + f b
      rw [add_assoc, ih n b ht, ← add_assoc]

theorem sum_merge_set {M : Type _} [AddCancelCommMonoid M]
    (f : Option FileGroupE → M) (hf0 : f none = 0)
    (gs : List (Option FileGroupE)) (i j : Nat) (gi gj m : FileGroupE)
    (hij : i ≠ j)
    (hgi : gs.getD i none = some gi) (hgj : gs.getD j none = some gj)
    (hm : f (some m) = f (some gi) + f (some gj)) :
    (((gs.set i (some m)).set j none).map f).sum = (gs.map f).sum := by
  have hi : i < gs.length := by
    by_contra hc
    rw [getD_len_le none gs i (le_of_not_lt hc)] at hgi
    exact Option.noConfusion hgi
  have hj : j < (gs.set i (some m)).length := by
    rw [List.length_set]
    by_contra hc
    rw [getD_len_le none gs j (le_of_not_lt hc)] at hgj
    exact Option.noConfusion hgj
  have e1 := sum_map_set f none (gs.set i (some m)) j none hj
  rw [getD_set_ne none (some m) gs i j hij, hgj, hf0, add_zero] at e1
  have e2 := sum_map_set f none gs i (some m) hi
  rw [hgi] at e2
  have key : (((gs.set i (some m)).set j none).map f).sum +
      (f (some gi) + f (some gj)) =
      (gs.map f).sum + (f (some gi) + f (some gj)) := by
    calc (((gs.set i (some m)).set j none).map f).sum +
        (f (some gi) + f (some gj))
        = ((((gs.set i (some m)).set j none).map f).sum + f (some gj)) +
          f (some gi) := by abel
      _ = ((gs.set i (some m)).map f).sum + f (some gi) := by rw [e1]
      _ = (gs.map f).sum + f (some m) := e2
      _ = (gs.map f).sum + (f (some gi) + f (some gj)) := by rw [hm]
  exact add_right_cancel key

theorem simMergeStep_sum {M : Type _} [AddCancelCommMonoid M]
    (f : Option FileGroupE → M) (hf0 : f none = 0)
    (hadd : ∀ g gi gj : FileGroupE, g.changes = gi.changes ++ gj.changes →
      g.total_lines = gi.total_lines + gj.total_lines →
      f (some g) = f (some gi) + f (some gj))
    (gs : List (Option FileGroupE)) (fs : List (Finset String)) (i j : Nat)
    (hij : i ≠ j) :
    ((simMergeStep gs fs i j).1.map f).sum = (gs.map f).sum := by
  unfold simMergeStep
  cases hgi : gs.getD i none with
  | none => rfl
  | some gi =>
    cases hgj : gs.getD j none with
    | none => rfl
    | some gj =>
      dsimp only
      exact sum_merge_set f hf0 gs i j gi gj _ hij hgi hgj
        (hadd _ gi gj rfl rfl)

theorem foldl_inv_mem {α β : Type _} (P : β → Prop) :
    ∀ (l : List α) (f : β → α → β),
      (∀ b a, a ∈ l → P b → P (f b a)) → ∀ b, P b → P (l.foldl f b) := by
  intro l
  induction l with
  | nil => intro f _ b hb; exact hb
  | cons a t ih =>
    intro f hstep b hb
    exact ih f (fun b' a' ha' hb' => hstep b' a' (List.mem_cons_of_mem a ha') hb')
      (f b a) (hstep b a (List.mem_cons_self a t) hb)

/-- The pair selected by `findBestPair` always has `i < j` (the inner scan
starts at `i + 1`). -/
theorem findBestPair_lt (gs : List (Option FileGroupE))
    (fs : List (Finset String)) (i j : Nat)
    (h : (findBestPair gs fs).2 = some (i, j)) : i < j := by
  let P : ℚ × Option (Nat × Nat) → Prop := fun b =>
    ∀ i' j', b.2 = some (i', j') → i' < j'
  suffices hP : P (findBestPair gs fs) from hP i j h
  unfold findBestPair
  apply foldl_inv P
  · intro b a hb
    cases hgi : gs.getD a none with
    | none => simpa [hgi] using hb
    | some gi =>
      simp only [hgi]
      apply foldl_inv_mem P
      · intro b' a' ha' hb'
        cases hgj : gs.getD a' none with
        | none => simpa [hgj] using hb'
        | some gj =>
          simp only [hgj]
          split
          · exact hb'
          · split
            · intro i' j' heq
              simp only at heq
              cases heq
              have := List.mem_range'_1.mp ha'
              omega
            · exact hb'
      · exact hb
  · intro i' j' h'
    simp only at h'
    exact absurd h' (by simp)

/-- The `while changed` loop conserves any additive slot measure that the
merge step conserves. -/
theorem simLoop_sum {M : Type _} [AddCancelCommMonoid M]
    (f : Option FileGroupE → M) (hf0 : f none = 0)
    (hadd : ∀ g gi gj : FileGroupE, g.changes = gi.changes ++ gj.changes →
      g.total_lines = gi.total_lines + gj.total_lines →
      f (some g) = f (some gi) + f (some gj)) :
    ∀ (fuel : Nat) (gs : List (Option FileGroupE)) (fs : List (Finset String)),
      ((simLoop fuel gs fs).1.map f).sum = (gs.map f).sum := by
  intro fuel
  induction fuel with
  | zero => intro gs fs; rfl
  | succ n ih =>
    intro gs fs
    unfold simLoop
    cases hbp : (findBestPair gs fs).2 with
    | none => rfl
    | some ij =>
      dsimp only
      rw [ih]
      exact simMergeStep_sum f hf0 hadd gs fs ij.1 ij.2
        (Nat.ne_of_lt (findBestPair_lt gs fs ij.1 ij.2 (by rw [hbp])))

theorem sum_map_enum {α β M : Type _} [AddCommMonoid M] (f : β → M)
    (g : α → M) (F : Nat × α → β) (hF : ∀ ka : Nat × α, f (F ka) = g ka.2)
    (l : List α) : ((l.enum.map F).map f).sum = (l.map g).sum := by
  rw [List.map_map]
  have h : (f ∘ F) = (g ∘ Prod.snd) := funext hF
  rw [h, ← List.map_map, List.enum_map_snd]

/-- Renumbering a change list keeps the payload multiset. -/
theorem renum_changes_payloads (k : Nat) (l : List ChangeE) :
    chPayloads (l.enum.map (fun mc =>
      { mc.2 with file_num := k, change_num := mc.1 + 1 })) = chPayloads l := by
  unfold chPayloads
  rw [List.map_map]
  have h : (changePayload ∘ fun mc : Nat × ChangeE =>
      { mc.2 with file_num := k, change_num := mc.1 + 1 }) =
      (changePayload ∘ Prod.snd) := rfl
  rw [h, ← List.map_map, List.enum_map_snd]

/-- `renumberGroups` keeps the payload multiset. -/
theorem renumber_payloads (l : List FileGroupE) :
    groupsPayloads (renumberGroups l) = groupsPayloads l := by
  unfold groupsPayloads renumberGroups
  refine sum_map_enum (fun g : FileGroupE => chPayloads g.changes)
    (fun g : FileGroupE => chPayloads g.changes) _ ?_ l
  intro kg
  exact renum_changes_payloads (kg.1 + 1) kg.2.changes

/-- `renumberGroups` keeps the `total_lines` sum. -/
theorem renumber_total (l : List FileGroupE) :
    groupsTotal (renumberGroups l) = groupsTotal l := by
  unfold groupsTotal renumberGroups
  refine sum_map_enum FileGroupE.total_lines FileGroupE.total_lines _ ?_ l
  intro kg
  rfl

/-- Compacting the vacated slots keeps the payload multiset. -/
theorem filterMap_payloads : ∀ l : List (Option FileGroupE),
    groupsPayloads (l.filterMap id) = stateP l := by
  intro l
  induction l with
  | nil => rfl
  | cons o t ih =>
    cases o with
    | none =>
      show groupsPayloads (t.filterMap id) = stateP (none :: t)
      rw [ih]
      show stateP t = ((none :: t).map oPayloads).sum
      simp [oPayloads, stateP]
    | some g =>
      show groupsPayloads (g :: t.filterMap id) = stateP (some g :: t)
      show (((g :: t.filterMap id)).map (fun g => chPayloads g.changes)).sum =
        ((some g :: t).map oPayloads).sum
      simp only [List.map_cons, List.sum_cons]
      rw [show oPayloads (some g) = chPayloads g.changes from rfl]
      exact congrArg _ ih

/-- Compacting the vacated slots keeps the `total_lines` sum. -/
theorem filterMap_total : ∀ l : List (Option FileGroupE),
    groupsTotal (l.filterMap id) = (l.map oTotal).sum := by
  intro l
  induction l with
  | nil => rfl
  | cons o t ih =>
    cases o with
    | none =>
      show groupsTotal (t.filterMap id) = ((none :: t).map oTotal).sum
      rw [ih]
      simp [oTotal]
    | some g =>
      show ((g :: t.filterMap id).map FileGroupE.total_lines).sum =
        ((some g :: t).map oTotal).sum
      simp only [List.map_cons, List.sum_cons]
      rw [show oTotal (some g) = g.total_lines from rfl]
      exact congrArg _ ih

/-- Payload conservation of the full similarity pass. -/
theorem combine_payloads (gs : List FileGroupE) :
    groupsPayloads (combine_groups_by_similarity gs) = groupsPayloads gs := by
  unfold combine_groups_by_similarity
  split
  · rfl
  · dsimp only
    rw [renumber_payloads, filterMap_payloads]
    have h := simLoop_sum oPayloads rfl
      (fun g gi gj hc _ => by
        show chPayloads g.changes = chPayloads gi.changes + chPayloads gj.changes
        rw [hc]
        exact chPayloads_append gi.changes gj.changes)
      gs.length (gs.map some) (gs.map extract_group_functions)
    show ((simLoop gs.length (gs.map some)
      (gs.map extract_group_functions)).1.map oPayloads).sum = groupsPayloads gs
    rw [h, List.map_map]
    rfl

/-- `total_lines`-sum conservation of the full similarity pass. -/
theorem combine_total (gs : List FileGroupE) :
    groupsTotal (combine_groups_by_similarity gs) = groupsTotal gs := by
  unfold combine_groups_by_similarity
  split
  · rfl
  · dsimp only
    rw [renumber_total, filterMap_total]
    have h := simLoop_sum oTotal rfl (fun g gi gj _ ht => ht)
      gs.length (gs.map some) (gs.map extract_group_functions)
    rw [h, List.map_map]
    rfl

/-- Fold invariant of the coalescing pass: payloads. -/
theorem coalesceGo_payloads :
    ∀ (gs : List FileGroupE) (cur : Option CombGroup) (acc : List CombGroup),
      combPayloads (coalesceGo gs cur acc) =
        combPayloads acc +
          (match cur with | some c => chPayloads c.changes | none => 0) +
          groupsPayloads gs := by
  intro gs
  induction gs with
  | nil =>
    intro cur acc
    cases cur with
    | none => simp [coalesceGo, groupsPayloads]
    | some c =>
      show combPayloads (acc ++ [c]) = _
      simp [coalesceGo, combPayloads, groupsPayloads]
  | cons g rest ih =>
    intro cur acc
    cases cur with
    | none =>
      show combPayloads (coalesceGo rest
        (some ⟨[groupFilePath g], g.changes, g.total_lines⟩) acc) = _
      rw [ih]
      show combPayloads acc + chPayloads g.changes + groupsPayloads rest = _
      simp only [groupsPayloads, List.map_cons, List.sum_cons]
      show _ = combPayloads acc + 0 +
        (chPayloads g.changes + (rest.map (fun g => chPayloads g.changes)).sum)
      rw [add_zero, ← add_assoc]
    | some c =>
      show combPayloads
        (if c.total_lines + g.total_lines ≤ MAX_COMBINED_FILE_GROUP_LINES
         then coalesceGo rest (some ⟨c.files ++ [groupFilePath g],
            c.changes ++ g.changes, c.total_lines + g.total_lines⟩) acc
         else coalesceGo rest
            (some ⟨[groupFilePath g], g.changes, g.total_lines⟩)
            (acc ++ [c])) = _
      split
      · rw [ih]
        show combPayloads acc + chPayloads (c.changes ++ g.changes) +
          groupsPayloads rest = _
        rw [chPayloads_append]
        simp only [groupsPayloads, List.map_cons, List.sum_cons]
        show _ = combPayloads acc + chPayloads c.changes +
          (chPayloads g.changes + (rest.map (fun g => chPayloads g.changes)).sum)
        abel
      · rw [ih]
        show combPayloads (acc ++ [c]) + chPayloads g.changes +
          groupsPayloads rest = _
        have hx : combPayloads (acc ++ [c]) =
            combPayloads acc + chPayloads c.changes := by
          simp [combPayloads]
        rw [hx]
        simp only [groupsPayloads, List.map_cons, List.sum_cons]
        show _ = combPayloads acc + chPayloads c.changes +
          (chPayloads g.changes + (rest.map (fun g => chPayloads g.changes)).sum)
        abel

/-- Fold invariant of the coalescing pass: `total_lines`. -/
theorem coalesceGo_total :
    ∀ (gs : List FileGroupE) (cur : Option CombGroup) (acc : List CombGroup),
      combTotal (coalesceGo gs cur acc) =
        combTotal acc +
          (match cur with | some c => c.total_lines | none => 0) +
          groupsTotal gs := by
  intro gs
  induction gs with
  | nil =>
    intro cur acc
    cases cur with
    | none => simp [coalesceGo, groupsTotal]
    | some c =>
      show combTotal (acc ++ [c]) = _
      simp [coalesceGo, combTotal, groupsTotal]
  | cons g rest ih =>
    intro cur acc
    cases cur with
    | none =>
      show combTotal (coalesceGo rest
        (some ⟨[groupFilePath g], g.changes, g.total_lines⟩) acc) = _
      rw [ih]
      show combTotal acc + g.total_lines + groupsTotal rest = _
      simp only [groupsTotal, List.map_cons, List.sum_cons]
      omega
    | some c =>
      show combTotal
        (if c.total_lines + g.total_lines ≤ MAX_COMBINED_FILE_GROUP_LINES
         then coalesceGo rest (some ⟨c.files ++ [groupFilePath g],
            c.changes ++ g.changes, c.total_lines + g.total_lines⟩) acc
         else coalesceGo rest
            (some ⟨[groupFilePath g], g.changes, g.total_lines⟩)
            (acc ++ [c])) = _
      split
      · rw [ih]
        show combTotal acc + (c.total_lines + g.total_lines) +
          groupsTotal rest = _
        simp only [groupsTotal, List.map_cons, List.sum_cons]
        omega
      · rw [ih]
        show combTotal (acc ++ [c]) + g.total_lines + groupsTotal rest = _
        have hx : combTotal (acc ++ [c]) = combTotal acc + c.total_lines := by
          simp [combTotal]
        rw [hx]
        simp only [groupsTotal, List.map_cons, List.sum_cons]
        omega

/-- Finalization keeps the payload multiset. -/
theorem finalize_payloads (cs : List CombGroup) :
    groupsPayloads (finalizeCoalesced cs) = combPayloads cs := by
  unfold groupsPayloads finalizeCoalesced combPayloads
  refine sum_map_enum (fun g : FileGroupE => chPayloads g.changes)
    (fun c : CombGroup => chPayloads c.changes) _ ?_ cs
  intro kc
  exact renum_changes_payloads (kc.1 + 1) kc.2.changes

/-- Finalization keeps the `total_lines` sum. -/
theorem finalize_total (cs : List CombGroup) :
    groupsTotal (finalizeCoalesced cs) = combTotal cs := by
  unfold groupsTotal finalizeCoalesced combTotal
  refine sum_map_enum FileGroupE.total_lines CombGroup.total_lines _ ?_ cs
  intro kc
  rfl

/-- Payload conservation of the coalescing pass. -/
theorem coalesce_payloads (gs : List FileGroupE) :
    groupsPayloads (small_group_coalesce gs) = groupsPayloads gs := by
  unfold small_group_coalesce
  split
  · rfl
  · rw [finalize_payloads, coalesceGo_payloads]
    show combPayloads [] + 0 + groupsPayloads gs = groupsPayloads gs
    simp [combPayloads]

/-- `total_lines`-sum conservation of the coalescing pass. -/
theorem coalesce_total (gs : List FileGroupE) :
    groupsTotal (small_group_coalesce gs) = groupsTotal gs := by
  unfold small_group_coalesce
  split
  · rfl
  · rw [finalize_total, coalesceGo_total]
    show combTotal [] + 0 + groupsTotal gs = groupsTotal gs
    simp [combTotal]

/-- C10 counterexample: the claim's literal multiset equality fails because
both passes renumber. The change `cgA` (with `file_num` 5, `change_num` 7)
is in the input of the coalescing pass, but no output group contains it —
its copy in the output carries the rewritten numbering `(1, 1)`. -/
theorem C10_counterexample :
    cgA ∈ gA.changes ∧
    ∀ g ∈ small_group_coalesce [gA, gB], cgA ∉ g.changes := by
  decide

/-- C10 (amended): both group-merging passes conserve the changes modulo
renumbering: the multiset of change payloads (every `Change` field except
`file_num` and `change_num`, which the final renumbering rewrites
sequentially) in the output groups equals that of the input groups, for the
small-group coalescing pass and for `combine_groups_by_similarity`, and
each pass also preserves the sum of the groups' `total_lines` fields. -/
theorem C10_changes_conserved (gs : List FileGroupE) :
    groupsPayloads (small_group_coalesce gs) = groupsPayloads gs ∧
    groupsTotal (small_group_coalesce gs) = groupsTotal gs ∧
    groupsPayloads (combine_groups_by_similarity gs) = groupsPayloads gs ∧
    groupsTotal (combine_groups_by_similarity gs) = groupsTotal gs :=
  ⟨coalesce_payloads gs, coalesce_total gs,
   combine_payloads gs, combine_total gs⟩

/-! ### Claim C7: the call map excludes keywords and self-references -/

/-- The identifier scan never records a C keyword. -/
theorem findCallsGo_keywords :
    ∀ (fuel : Nat) (cs : List Char) (prev : Option Char) (acc : Finset String),
      (∀ c ∈ acc, c ∉ C_KEYWORDS) →
      ∀ x ∈ findCallsGo fuel cs prev acc, x ∉ C_KEYWORDS := by
  intro fuel
  induction fuel with
  | zero => intro cs prev acc hacc x hx; exact hacc x hx
  | succ n ih =>
    intro cs prev acc hacc
    cases cs with
    | nil => intro x hx; exact hacc x hx
    | cons c rest =>
      intro x hx
      simp only [findCallsGo] at hx
      split at hx
      · split at hx
        · refine ih _ _ _ ?_ x hx
          split
          · exact hacc
          · rename_i hk
            intro y hy
            rcases Finset.mem_insert.mp hy with h | h
            · subst h; exact hk
            · exact hacc y h
        · exact ih _ _ _ hacc x hx
      · exact ih _ _ _ hacc x hx

/-- `extract_function_calls_python` never returns a C keyword. -/
theorem extract_calls_keywords (line : String) :
    ∀ x ∈ extract_function_calls_python line, x ∉ C_KEYWORDS := by
  unfold extract_function_calls_python
  dsimp only
  split
  · intro x hx; exact absurd hx (Finset.not_mem_empty x)
  · exact findCallsGo_keywords _ _ _ _
      (fun c hc => absurd hc (Finset.not_mem_empty c))

/-- The content loop only records keyword-free per-line call sets. -/
theorem phGo_l2cKW (lines : List String) :
    ∀ (fuel i : Nat) (acc : PhAcc), l2cKW acc.line_to_calls →
      l2cKW (phGo lines fuel i acc).line_to_calls := by
  intro fuel
  induction fuel with
  | zero => intro i acc h; exact h
  | succ n ih =>
    intro i acc h
    simp only [phGo]
    split
    · exact h
    · split
      · exact h
      · split
        · apply ih
          intro e he
          dsimp only at he
          split at he
          · rcases List.mem_append.mp he with h1 | h1
            · exact h e h1
            · rcases List.mem_singleton.mp h1 with rfl
              exact fun c hc => extract_calls_keywords _ c hc
          · exact h e he
        · split
          · exact ih _ _ h
          · split
            · exact ih _ _ h
            · exact ih _ _ h

/-- `fcUpdate` keeps the call-map invariant when fed a set that avoids its
own key and the keywords. -/
theorem fcUpdate_inv (fc : List (String × Finset String)) (k : String)
    (vs : Finset String) (hfc : fcInv fc) (hk : k ∉ vs) (hvs : kwFree vs) :
    fcInv (fcUpdate fc k vs) := by
  unfold fcUpdate
  split
  · intro e he
    rcases List.mem_map.mp he with ⟨e0, he0, rfl⟩
    by_cases hek : e0.1 = k
    · rw [if_pos hek]
      dsimp only
      constructor
      · intro hm0
        rcases Finset.mem_union.mp hm0 with h1 | h1
        · exact (hfc e0 he0).1 h1
        · exact hk (hek ▸ h1)
      · intro c hc
        rcases Finset.mem_union.mp hc with h1 | h1
        · exact (hfc e0 he0).2 c h1
        · exact hvs c h1
    · rw [if_neg hek]
      exact hfc e0 he0
  · intro e he
    rcases List.mem_append.mp he with h1 | h1
    · exact hfc e h1
    · rcases List.mem_singleton.mp h1 with rfl
      exact ⟨hk, hvs⟩

/-- One attribution step keeps the call-map invariant: the attributed set is
filtered against the containing function's own name. -/
theorem attributeStep_inv (hl : List String) (hf : Option String)
    (fc : List (String × Finset String)) (entry : Nat × Finset String)
    (hfc : fcInv fc) (hcalls : kwFree entry.2) :
    fcInv (attributeStep hl hf fc entry) := by
  unfold attributeStep
  dsimp only
  cases hsym : find_symbol_for_line_python hl entry.1 with
  | some containing_func =>
    dsimp only
    cases hname : extract_function_name_from_symbol_python containing_func with
    | some func_name =>
      dsimp only
      split
      · refine fcUpdate_inv fc func_name _ hfc ?_ ?_
        · intro hm0
          exact (Finset.mem_filter.mp hm0).2 rfl
        · intro c hc
          exact hcalls c (Finset.mem_filter.mp hc).1
      · exact hfc
    | none => exact hfc
  | none =>
    dsimp only
    cases hf with
    | some hfName =>
      dsimp only
      split
      · refine fcUpdate_inv fc hfName _ hfc ?_ ?_
        · intro hm0
          exact (Finset.mem_filter.mp hm0).2 rfl
        · intro c hc
          exact hcalls c (Finset.mem_filter.mp hc).1
      · exact hfc
    | none => exact hfc

/-- The whole attribution loop produces a well-formed call map. -/
theorem attributeCalls_inv (hl : List String) (hf : Option String)
    (l2c : List (Nat × Finset String)) (h : l2cKW l2c) :
    fcInv (attributeCalls hl hf l2c) :=
  foldl_inv_mem fcInv l2c (attributeStep hl hf)
    (fun fc e he hfc => attributeStep_inv hl hf fc e hfc (h e he))
    [] (fun e he => absurd he (List.not_mem_nil e))

/-- `parse_hunk_python`'s call map is well-formed. -/
theorem parse_hunk_inv (lines : List String) (hunk_start : Nat) :
    fcInv (parse_hunk_python lines hunk_start).function_calls := by
  unfold parse_hunk_python
  dsimp only
  split
  · intro e he; exact absurd he (List.not_mem_nil e)
  · exact attributeCalls_inv _ _ _
      (phGo_l2cKW lines lines.length (hunk_start + 1) ⟨[], [], [], ∅, 0⟩
        (fun e he => absurd he (List.not_mem_nil e)))

/-- Merging one hunk's result keeps the call-map invariant. -/
theorem mergeHunkResult_inv (acc hr : DiffParseResultE)
    (ha : fcInv acc.function_calls) (hh : fcInv hr.function_calls) :
    fcInv (mergeHunkResult acc hr).function_calls := by
  unfold mergeHunkResult
  dsimp only
  exact foldl_inv_mem fcInv hr.function_calls _
    (fun fc e he hfc => fcUpdate_inv fc e.1 e.2 hfc (hh e he).1 (hh e he).2)
    acc.function_calls ha

/-- The per-file hunk loop keeps the call-map invariant. -/
theorem pudInner_inv (lines : List String) :
    ∀ (fuel i : Nat) (acc : DiffParseResultE), fcInv acc.function_calls →
      fcInv (pudInner lines fuel i acc).2.function_calls := by
  intro fuel
  induction fuel with
  | zero => intro i acc h; exact h
  | succ n ih =>
    intro i acc h
    simp only [pudInner]
    split
    · exact h
    · split
      · exact ih _ _ (mergeHunkResult_inv _ _ h (parse_hunk_inv lines i))
      · split
        · exact h
        · exact ih _ _ h

/-- The outer file loop keeps the call-map invariant. -/
theorem pudOuter_inv (lines : List String) :
    ∀ (fuel i : Nat) (acc : DiffParseResultE), fcInv acc.function_calls →
      fcInv (pudOuter lines fuel i acc).function_calls := by
  intro fuel
  induction fuel with
  | zero => intro i acc h; exact h
  | succ n ih =>
    intro i acc h
    simp only [pudOuter]
    split
    · exact h
    · split
      · exact ih _ _ (pudInner_inv lines (lines.length + 1) _ acc h)
      · exact ih _ _ h

/-- The full diff parse produces a well-formed call map. -/
theorem parse_unified_diff_inv (lines : List String) :
    fcInv (parse_unified_diff_python lines).function_calls :=
  pudOuter_inv lines (lines.length + 1) 0 ⟨∅, ∅, ∅, ∅, []⟩
    (fun e he => absurd he (List.not_mem_nil e))

/-- The fallback result inherits the invariant, entry by entry. -/
theorem build_result_inv (r : DiffParseResultE) (h : fcInv r.function_calls) :
    ∀ f ∈ (build_result_from_python r).modified_functions,
      f.name ∉ f.calls ∧ ∀ c ∈ f.calls, c ∉ C_KEYWORDS := by
  intro f hf
  unfold build_result_from_python at hf
  dsimp only at hf
  rcases List.mem_map.mp hf with ⟨name, hname, rfl⟩
  dsimp only
  constructor
  · intro hm0
    rw [Finset.mem_sort] at hm0
    exact (Finset.mem_filter.mp hm0).2 rfl
  · intro c hc
    rw [Finset.mem_sort] at hc
    have hc2 := (Finset.mem_filter.mp hc).1
    revert hc2
    unfold fcGet
    cases hfind : r.function_calls.find? (fun e => e.1 = name) with
    | none =>
      intro hc2
      exact absurd hc2 (Finset.not_mem_empty c)
    | some e =>
      intro hc2
      exact (h e (List.mem_of_find?_eq_some hfind)).2 c hc2

/-- C7: in the per-function call map produced by diff parsing
(`parse_unified_diff_python`, and each single-hunk `parse_hunk_python`
result), every key's call set excludes the key itself and every C keyword;
the same holds for each entry of the fallback result built by
`build_result_from_python`. -/
theorem C7_call_map_no_self_no_keywords (lines : List String)
    (hunk_start : Nat) :
    (∀ e ∈ (parse_unified_diff_python lines).function_calls,
      e.1 ∉ e.2 ∧ ∀ c ∈ e.2, c ∉ C_KEYWORDS) ∧
    (∀ e ∈ (parse_hunk_python lines hunk_start).function_calls,
      e.1 ∉ e.2 ∧ ∀ c ∈ e.2, c ∉ C_KEYWORDS) ∧
    (∀ f ∈ (build_result_from_python
        (parse_unified_diff_python lines)).modified_functions,
      f.name ∉ f.calls ∧ ∀ c ∈ f.calls, c ∉ C_KEYWORDS) :=
  ⟨parse_unified_diff_inv lines, parse_hunk_inv lines hunk_start,
   build_result_inv _ (parse_unified_diff_inv lines)⟩

/-! ### Claim C4: parse_diff conserves the hunk lines of a valid diff -/

theorem pyToList_append (s t : String) : (s ++ t).toList = s.toList ++ t.toList :=
  String.data_append s t

theorem asString_toList (l : List Char) : l.asString.toList = l := rfl

theorem toList_eq_nil (s : String) (h : s.toList = []) : s = "" := by
  cases s with
  | mk d => cases h; rfl

theorem digitChar_isDigit : ∀ n, (digitChar n).isDigit = true
  | 0 | 1 | 2 | 3 | 4 | 5 | 6 | 7 | 8 => rfl
  | _ + 9 => rfl

theorem natDigits_ne_nil (n : Nat) : natDigits n ≠ [] := by
  unfold natDigits
  split
  · simp
  · simp

theorem natDigits_digits (n : Nat) : ∀ c ∈ natDigits n, c.isDigit = true := by
  induction n using Nat.strong_induction_on with
  | _ n ih =>
    unfold natDigits
    split
    · intro c hc
      rcases List.mem_singleton.mp hc with rfl
      exact digitChar_isDigit n
    · rename_i hn
      intro c hc
      rcases List.mem_append.mp hc with h | h
      · exact ih (n / 10) (Nat.div_lt_self (by omega) (by omega)) c h
      · rcases List.mem_singleton.mp h with rfl
        exact digitChar_isDigit _

theorem takeDigits_split :
    ∀ (ds rest : List Char), (∀ c ∈ ds, c.isDigit = true) →
      (∀ c cs', rest = c :: cs' → c.isDigit = false) →
      takeDigits (ds ++ rest) = (ds, rest) := by
  intro ds
  induction ds with
  | nil =>
    intro rest _ hrest
    cases rest with
    | nil => rfl
    | cons c t =>
      simp [takeDigits, List.takeWhile_cons, List.dropWhile_cons, hrest c t rfl]
  | cons d ds ih =>
    intro rest hds hrest
    have hd : d.isDigit = true := hds d (List.mem_cons_self d ds)
    have hih := ih rest (fun c hc => hds c (List.mem_cons_of_mem d hc)) hrest
    simp only [takeDigits, List.cons_append, List.takeWhile_cons,
      List.dropWhile_cons, hd, Prod.mk.injEq] at hih ⊢
    simp [hih.1, hih.2]

theorem pyStartsWith_head {l : String} {c : Char} {cs : List Char}
    {pre : String} (hpre : pre.toList = c :: cs)
    (h : l.pyStartsWith pre = true) : ∃ t, l.toList = c :: t := by
  unfold String.pyStartsWith at h
  rw [hpre] at h
  cases hl : l.toList with
  | nil => rw [hl] at h; simp [List.isPrefixOf] at h
  | cons d t =>
    rw [hl] at h
    simp [List.isPrefixOf] at h
    exact ⟨t, by rw [h.1]⟩

theorem pyStartsWith_false_of_head {l : String} {c d : Char} {cs t : List Char}
    {pre : String} (hpre : pre.toList = c :: cs) (hl : l.toList = d :: t)
    (hne : c ≠ d) : l.pyStartsWith pre = false := by
  unfold String.pyStartsWith
  rw [hpre, hl]
  simp [List.isPrefixOf, hne]

theorem pyStartsWith_empty (pre : String) {c : Char} {cs : List Char}
    (hpre : pre.toList = c :: cs) : ("" : String).pyStartsWith pre = false := by
  unfold String.pyStartsWith
  rw [hpre]
  rfl

theorem asString_data (l : List Char) : l.asString.data = l := rfl

theorem toList_data (s : String) : s.toList = s.data := rfl

theorem renderHunkHeader_toList (hk : VHunk) :
    (renderHunkHeader hk).toList =
      '@':: '@':: ' ':: '-'::(natDigits hk.oldStart ++
        ','::(natDigits hk.oldCount ++
        ' ':: '+'::(natDigits hk.newStart ++
        ','::(natDigits hk.newCount ++
        ' ':: '@':: '@'::
          (if hk.ctx.pyIsEmpty then [] else ' '::hk.ctx.toList))))) := by
  have l1 : ("@@ -" : String).toList = ['@','@',' ','-'] := rfl
  have l2 : ("," : String).toList = [','] := rfl
  have l3 : (" +" : String).toList = [' ','+'] := rfl
  have l4 : (" @@" : String).toList = [' ','@','@'] := rfl
  have l5 : (" " : String).toList = [' '] := rfl
  have l6 : ("" : String).toList = [] := rfl
  unfold renderHunkHeader
  by_cases hctx : hk.ctx.pyIsEmpty
  · simp [hctx, pyToList_append, asString_toList, asString_data, toList_data,
      l1, l2, l3, l4, l5, l6]
  · simp [hctx, pyToList_append, asString_toList, asString_data, toList_data,
      l1, l2, l3, l4, l5, l6]

theorem matchHunkHeader_canon (ds1 ds2 ds3 ds4 ctxT : List Char) (s : String)
    (hs : s.toList = '@':: '@':: ' ':: '-'::(ds1 ++
      ','::(ds2 ++ ' ':: '+'::(ds3 ++ ','::(ds4 ++ ' ':: '@':: '@'::ctxT)))))
    (h1 : ∀ c ∈ ds1, c.isDigit = true) (h1n : ds1 ≠ [])
    (h2 : ∀ c ∈ ds2, c.isDigit = true) (h2n : ds2 ≠ [])
    (h3 : ∀ c ∈ ds3, c.isDigit = true) (h3n : ds3 ≠ [])
    (h4 : ∀ c ∈ ds4, c.isDigit = true) (h4n : ds4 ≠ []) :
    matchHunkHeader s = some (digitsToNat ds1, some (digitsToNat ds2),
      digitsToNat ds3, some (digitsToNat ds4),
      (match ctxT with | ' ' :: cs4 => cs4 | _ => ctxT).asString) := by
  obtain ⟨a0, as0, e1⟩ := List.exists_cons_of_ne_nil h1n
  obtain ⟨b0, bs0, e2⟩ := List.exists_cons_of_ne_nil h2n
  obtain ⟨c0, cs0, e3⟩ := List.exists_cons_of_ne_nil h3n
  obtain ⟨d0, es0, e4⟩ := List.exists_cons_of_ne_nil h4n
  have t1 := takeDigits_split ds1
    (','::(ds2 ++ ' ':: '+'::(ds3 ++ ','::(ds4 ++ ' ':: '@':: '@'::ctxT)))) h1
    (by intro c cs' h; injection h with hh _; rw [← hh]; rfl)
  have t2 := takeDigits_split ds2
    (' ':: '+'::(ds3 ++ ','::(ds4 ++ ' ':: '@':: '@'::ctxT))) h2
    (by intro c cs' h; injection h with hh _; rw [← hh]; rfl)
  have t3 := takeDigits_split ds3
    (','::(ds4 ++ ' ':: '@':: '@'::ctxT)) h3
    (by intro c cs' h; injection h with hh _; rw [← hh]; rfl)
  have t4 := takeDigits_split ds4 (' ':: '@':: '@'::ctxT) h4
    (by intro c cs' h; injection h with hh _; rw [← hh]; rfl)
  unfold matchHunkHeader
  rw [hs]
  simp only []
  rw [t1]
  dsimp only
  rw [e1]
  simp only []
  rw [← e1]
  simp only [optCommaDigits]
  rw [t2]
  dsimp only
  rw [e2]
  simp only []
  rw [← e2]
  rw [t3]
  dsimp only
  rw [e3]
  simp only []
  rw [← e3]
  rw [t4]
  dsimp only
  rw [e4]
  simp only []
  rw [← e4]
  rfl

theorem toList_asString (s : String) : s.toList.asString = s := rfl

theorem matchHunkHeader_render (hk : VHunk) :
    matchHunkHeader (renderHunkHeader hk) =
      some (digitsToNat (natDigits hk.oldStart),
        some (digitsToNat (natDigits hk.oldCount)),
        digitsToNat (natDigits hk.newStart),
        some (digitsToNat (natDigits hk.newCount)), hk.ctx) := by
  have h := matchHunkHeader_canon (natDigits hk.oldStart)
    (natDigits hk.oldCount) (natDigits hk.newStart) (natDigits hk.newCount)
    (if hk.ctx.pyIsEmpty then [] else ' '::hk.ctx.toList)
    (renderHunkHeader hk) (renderHunkHeader_toList hk)
    (natDigits_digits _) (natDigits_ne_nil _)
    (natDigits_digits _) (natDigits_ne_nil _)
    (natDigits_digits _) (natDigits_ne_nil _)
    (natDigits_digits _) (natDigits_ne_nil _)
  rw [h]
  by_cases hctx : hk.ctx.pyIsEmpty
  · rw [if_pos hctx]
    have he : hk.ctx.toList = [] := by
      unfold String.pyIsEmpty at hctx
      simpa using hctx
    rw [toList_eq_nil hk.ctx he]
    rfl
  · rw [if_neg hctx]
    simp only []
    rw [toList_asString]

theorem isPrefixOf_append_self :
    ∀ (p t : List Char), p.isPrefixOf (p ++ t) = true := by
  intro p
  induction p with
  | nil => intro t; simp [List.isPrefixOf]
  | cons c cs ih => intro t; simp [List.isPrefixOf, ih]

theorem matchDiffGit_some (A B : String) (hA : A ≠ "") (hB : B ≠ "") :
    ∃ pq, matchDiffGit ("diff --git a/" ++ A ++ " b/" ++ B) = some pq := by
  have hb3 : (" b/" : String).toList = [' ', 'b', '/'] := rfl
  have hline : ("diff --git a/" ++ A ++ " b/" ++ B).toList =
      ("diff --git a/" : String).toList ++
        (A.toList ++ (' ':: 'b':: '/'::B.toList)) := by
    simp [pyToList_append, hb3]
  have hstart :
      ("diff --git a/" ++ A ++ " b/" ++ B).pyStartsWith "diff --git a/" =
        true := by
    unfold String.pyStartsWith
    rw [hline]
    exact isPrefixOf_append_self _ _
  have hrest : (("diff --git a/" ++ A ++ " b/" ++ B).pyDrop 13).toList =
      A.toList ++ (' ':: 'b':: '/'::B.toList) := by
    unfold String.pyDrop
    rw [asString_toList, hline,
      show (13 : Nat) = ("diff --git a/" : String).toList.length from rfl,
      List.drop_left]
  have hAl : A.toList ≠ [] := fun h => hA (toList_eq_nil A h)
  have hBl : B.toList ≠ [] := fun h => hB (toList_eq_nil B h)
  have hApos : 0 < A.toList.length := List.length_pos.mpr hAl
  have hBpos : 0 < B.toList.length := List.length_pos.mpr hBl
  have hTlen : (A.toList ++ (' ':: 'b':: '/'::B.toList)).length =
      A.toList.length + B.toList.length + 3 := by
    simp [List.length_append]
    omega
  have hmem : A.toList.length ∈
      (List.range (A.toList ++ (' ':: 'b':: '/'::B.toList)).length).filter
        (fun p => decide (0 < p ∧
          ((A.toList ++ (' ':: 'b':: '/'::B.toList)).drop p).take 3 =
            [' ', 'b', '/'] ∧
          p + 3 < (A.toList ++ (' ':: 'b':: '/'::B.toList)).length)) := by
    rw [List.mem_filter]
    constructor
    · rw [List.mem_range, hTlen]
      omega
    · rw [decide_eq_true_eq]
      refine ⟨hApos, ?_, ?_⟩
      · rw [List.drop_left]
        rfl
      · rw [hTlen]
        omega
  unfold matchDiffGit
  rw [if_pos hstart]
  dsimp only
  rw [hrest]
  obtain ⟨c, cs, hC⟩ := List.exists_cons_of_ne_nil (List.ne_nil_of_mem hmem)
  rw [hC]
  exact ⟨_, rfl⟩

theorem bodyLine_conds (l : String) (h : bodyLineOK l) :
    l.pyStartsWith "diff --git " = false ∧
    l.pyStartsWith "@@ " = false ∧
    (l.pyStartsWith "+" || l.pyStartsWith "-" || l.pyStartsWith " " ||
      decide (l = "")) = true := by
  rcases h with h | h | h | h
  · subst h
    refine ⟨by decide, by decide, ?_⟩
    simp
  · obtain ⟨t, ht⟩ :=
      pyStartsWith_head (show ("+" : String).toList = '+' :: [] from rfl) h
    refine ⟨pyStartsWith_false_of_head
        (show ("diff --git " : String).toList = 'd' :: _ from rfl) ht
        (by decide),
      pyStartsWith_false_of_head
        (show ("@@ " : String).toList = '@' :: _ from rfl) ht (by decide),
      by rw [h]; simp⟩
  · obtain ⟨t, ht⟩ :=
      pyStartsWith_head (show ("-" : String).toList = '-' :: [] from rfl) h
    refine ⟨pyStartsWith_false_of_head
        (show ("diff --git " : String).toList = 'd' :: _ from rfl) ht
        (by decide),
      pyStartsWith_false_of_head
        (show ("@@ " : String).toList = '@' :: _ from rfl) ht (by decide),
      by rw [h]; simp⟩
  · obtain ⟨t, ht⟩ :=
      pyStartsWith_head (show (" " : String).toList = ' ' :: [] from rfl) h
    refine ⟨pyStartsWith_false_of_head
        (show ("diff --git " : String).toList = 'd' :: _ from rfl) ht
        (by decide),
      pyStartsWith_false_of_head
        (show ("@@ " : String).toList = '@' :: _ from rfl) ht (by decide),
      by rw [h]; simp⟩

theorem parse_body (di : Option GlobalDiffInfoE) :
    ∀ (bs : List String), (∀ b ∈ bs, bodyLineOK b) →
      ∀ (rest : List String) (cf : Option FileChangeE) (h : HunkE)
        (files : List FileChangeE),
      parse_diff_go di (bs ++ rest) cf (some h) files =
        parse_diff_go di rest cf (some { h with lines := h.lines ++ bs })
          files := by
  intro bs
  induction bs with
  | nil =>
    intro _ rest cf h files
    simp only [List.nil_append, List.append_nil]
  | cons b bs ih =>
    intro hOK rest cf h files
    obtain ⟨h1, h2, h3⟩ := bodyLine_conds b (hOK b (List.mem_cons_self b bs))
    show parse_diff_go di (b :: (bs ++ rest)) cf (some h) files = _
    simp only [parse_diff_go, h1, h2, h3]
    simp only [Bool.false_eq_true, if_false, if_true]
    rw [ih (fun x hx => hOK x (List.mem_cons_of_mem b hx))]
    simp only [List.append_assoc, List.singleton_append]

theorem parse_preamble (di : Option GlobalDiffInfoE) :
    ∀ (ps : List String), (∀ p ∈ ps, preambleLineOK p) →
      ∀ (rest : List String) (cf : Option FileChangeE)
        (files : List FileChangeE),
      parse_diff_go di (ps ++ rest) cf none files =
        parse_diff_go di rest cf none files := by
  intro ps
  induction ps with
  | nil => intro _ rest cf files; rfl
  | cons p ps ih =>
    intro hOK rest cf files
    obtain ⟨hp1, hp2⟩ := hOK p (List.mem_cons_self p ps)
    have h1 : p.pyStartsWith "diff --git " = false := by
      revert hp1; cases p.pyStartsWith "diff --git " <;> simp
    have h2 : p.pyStartsWith "@@ " = false := by
      revert hp2; cases p.pyStartsWith "@@ " <;> simp
    show parse_diff_go di (p :: (ps ++ rest)) cf none files = _
    simp only [parse_diff_go, h1, h2, Bool.false_eq_true, if_false]
    rw [ite_self]
    exact ih (fun x hx => hOK x (List.mem_cons_of_mem p hx)) rest cf files

theorem renderHunkHeader_startsAt (hk : VHunk) :
    (renderHunkHeader hk).pyStartsWith "@@ " = true ∧
    (renderHunkHeader hk).pyStartsWith "diff --git " = false := by
  constructor
  · unfold String.pyStartsWith
    rw [show ("@@ " : String).toList = ['@', '@', ' '] from rfl,
      renderHunkHeader_toList]
    simp [List.isPrefixOf]
  · exact pyStartsWith_false_of_head
      (show ("diff --git " : String).toList = 'd' :: _ from rfl)
      (renderHunkHeader_toList hk) (by decide)

theorem parse_hunk_step (di : Option GlobalDiffInfoE) (hk : VHunk)
    (hOK : VHunkOK hk) (rest : List String) (f : FileChangeE)
    (ch : Option HunkE) (files : List FileChangeE) :
    parse_diff_go di (renderVHunk hk ++ rest) (some f) ch files =
      parse_diff_go di rest (some (pendFlush f ch))
        (some (vHunkToHunkE di hk)) files := by
  obtain ⟨hs1, hs2⟩ := renderHunkHeader_startsAt hk
  show parse_diff_go di (renderHunkHeader hk :: (hk.body ++ rest)) (some f)
    ch files = _
  simp only [parse_diff_go, hs1, hs2, Bool.false_eq_true, if_false, if_true]
  rw [matchHunkHeader_render]
  cases ch with
  | none =>
    simp only []
    rw [parse_body di hk.body hOK.2 rest (some f) _ files]
    rfl
  | some h0 =>
    simp only []
    rw [parse_body di hk.body hOK.2 rest _ _ files]
    rfl

theorem parse_hunks (di : Option GlobalDiffInfoE) :
    ∀ (hks : List VHunk), (∀ hk ∈ hks, VHunkOK hk) →
      ∀ (rest : List String) (f : FileChangeE) (ch : Option HunkE)
        (files : List FileChangeE),
      parse_diff_go di ((hks.map renderVHunk).flatten ++ rest) (some f) ch
          files =
        parse_diff_go di rest (some (hunksState di f ch hks).1)
          (hunksState di f ch hks).2 files := by
  intro hks
  induction hks with
  | nil => intro _ rest f ch files; rfl
  | cons hk hks ih =>
    intro hOK rest f ch files
    have hsplit : ((hk :: hks).map renderVHunk).flatten ++ rest =
        renderVHunk hk ++ ((hks.map renderVHunk).flatten ++ rest) := by
      simp
    rw [hsplit,
      parse_hunk_step di hk (hOK hk (List.mem_cons_self hk hks)) _ f ch files,
      ih (fun x hx => hOK x (List.mem_cons_of_mem hk hx))]
    rfl

theorem flushFile_some (files : List FileChangeE) (g : FileChangeE)
    (ch : Option HunkE) :
    flushFile files (some g) ch = files ++ [pendFlush g ch] := by
  cases ch <;> rfl

theorem hunksState_hunks (di : Option GlobalDiffInfoE) :
    ∀ (hks : List VHunk) (g : FileChangeE) (ch : Option HunkE),
      (pendFlush (hunksState di g ch hks).1 (hunksState di g ch hks).2).hunks =
        (pendFlush g ch).hunks ++ hks.map (vHunkToHunkE di) := by
  intro hks
  induction hks with
  | nil => intro g ch; simp [hunksState]
  | cons hk hks ih =>
    intro g ch
    simp only [hunksState]
    rw [ih (pendFlush g ch) (some (vHunkToHunkE di hk))]
    simp [pendFlush]

theorem parse_file (di : Option GlobalDiffInfoE) (f : VFile) (hOK : VFileOK f)
    (rest : List String) (cf : Option FileChangeE) (ch : Option HunkE)
    (files : List FileChangeE) :
    ∃ pq : String × String,
      parse_diff_go di (renderVFile f ++ rest) cf ch files =
        parse_diff_go di rest
          (some (hunksState di ⟨pq.1, pq.2, []⟩ none f.hunks).1)
          (hunksState di ⟨pq.1, pq.2, []⟩ none f.hunks).2
          (flushFile files cf ch) := by
  obtain ⟨pq, hpq⟩ := matchDiffGit_some f.pathA f.pathB hOK.1 hOK.2.1
  refine ⟨pq, ?_⟩
  have hstart : ("diff --git a/" ++ f.pathA ++ " b/" ++ f.pathB).pyStartsWith
      "diff --git " = true := by
    unfold String.pyStartsWith
    have hsp : ("diff --git a/" ++ f.pathA ++ " b/" ++ f.pathB).toList =
        ("diff --git " : String).toList ++
          (['a', '/'] ++ (f.pathA.toList ++
            (' ':: 'b':: '/'::f.pathB.toList))) := by
      simp [pyToList_append, show (" b/" : String).toList = [' ','b','/']
        from rfl, show ("diff --git a/" : String).toList =
          ("diff --git " : String).toList ++ ['a','/'] from rfl]
    rw [hsp]
    exact isPrefixOf_append_self _ _
  show parse_diff_go di (("diff --git a/" ++ f.pathA ++ " b/" ++ f.pathB) ::
    (f.preamble ++ (f.hunks.map renderVHunk).flatten ++ rest)) cf ch files = _
  simp only [parse_diff_go, hstart, if_true]
  rw [hpq]
  simp only []
  rw [List.append_assoc,
    parse_preamble di f.preamble hOK.2.2.2.2.1 _ _ _,
    parse_hunks di f.hunks hOK.2.2.2.2.2 rest ⟨pq.1, pq.2, []⟩ none
      (flushFile files cf ch)]

theorem parse_files (di : Option GlobalDiffInfoE) :
    ∀ (fs : List VFile), (∀ f ∈ fs, VFileOK f) →
      ∀ (cf : Option FileChangeE) (ch : Option HunkE)
        (files : List FileChangeE),
      (parse_diff_go di (fs.map renderVFile).flatten cf ch files).map
          FileChangeE.hunks =
        (flushFile files cf ch).map FileChangeE.hunks ++
          fs.map (fun f => f.hunks.map (vHunkToHunkE di)) := by
  intro fs
  induction fs with
  | nil => intro _ cf ch files; simp [parse_diff_go]
  | cons f fs ih =>
    intro hOK cf ch files
    have hsplit : ((f :: fs).map renderVFile).flatten =
        renderVFile f ++ (fs.map renderVFile).flatten := by simp
    rw [hsplit]
    obtain ⟨pq, hpq⟩ := parse_file di f (hOK f (List.mem_cons_self f fs))
      ((fs.map renderVFile).flatten) cf ch files
    rw [hpq, ih (fun x hx => hOK x (List.mem_cons_of_mem f hx))]
    rw [flushFile_some]
    have hh := hunksState_hunks di f.hunks ⟨pq.1, pq.2, []⟩ none
    simp only [List.map_append, List.map_cons]
    rw [show (pendFlush (hunksState di ⟨pq.1, pq.2, []⟩ none f.hunks).1
        (hunksState di ⟨pq.1, pq.2, []⟩ none f.hunks).2).hunks =
      f.hunks.map (vHunkToHunkE di) from hh]
    simp

/-- C4: for every well-formed rendered unified diff, `parse_diff` assigns
every hunk body line to exactly one tokenized `Hunk`, in order: listing, per
file and per hunk, the stored header followed by the stored lines reproduces
exactly the rendered hunks (headers plus added/removed/context lines), with
nothing dropped or duplicated. -/
theorem C4_parse_diff_line_conservation (fs : List VFile)
    (di : Option GlobalDiffInfoE) (hv : ValidVDiff fs) :
    (parse_diff (renderVDiff fs) di).map
        (fun fc => fc.hunks.map (fun h => h.header :: h.lines)) =
      fs.map (fun f => f.hunks.map renderVHunk) := by
  have h := parse_files di fs hv none none []
  have hsplit : (parse_diff (renderVDiff fs) di).map
      (fun fc => fc.hunks.map (fun h => h.header :: h.lines)) =
      ((parse_diff (renderVDiff fs) di).map FileChangeE.hunks).map
        (List.map (fun h => h.header :: h.lines)) := by
    rw [List.map_map]; rfl
  rw [hsplit]
  show ((parse_diff_go di (fs.map renderVFile).flatten none none []).map
      FileChangeE.hunks).map (List.map (fun h => h.header :: h.lines)) = _
  rw [h]
  show (fs.map (fun f => f.hunks.map (vHunkToHunkE di))).map
    (List.map (fun h => h.header :: h.lines)) = _
  rw [List.map_map]
  have hfun : ∀ f : VFile,
      ((List.map fun h : HunkE => h.header :: h.lines) ∘
        fun f : VFile => List.map (vHunkToHunkE di) f.hunks) f =
      f.hunks.map renderVHunk := by
    intro f
    show (f.hunks.map (vHunkToHunkE di)).map (fun h => h.header :: h.lines) = _
    rw [List.map_map]
    rfl
  rw [funext hfun]

/-- C4 witness: the conservation theorem applied to a concrete one-file,
one-hunk diff with a preamble. -/
theorem C4_witness :
    ValidVDiff [wVFile] ∧
    (parse_diff (renderVDiff [wVFile]) none).map
        (fun fc => fc.hunks.map (fun h => h.header :: h.lines)) =
      [wVFile].map (fun f => f.hunks.map renderVHunk) := by
  have hv : ValidVDiff [wVFile] := by
    unfold ValidVDiff VFileOK VHunkOK noNewline bodyLineOK preambleLineOK
    decide
  exact ⟨hv, C4_parse_diff_line_conservation [wVFile] none hv⟩
